import Mathlib

/-!
Verification development for the mahjong-coordinator repository.

The repository's core is embedded shallowly:

* `src/src/utils/groupUtils.js` — the recurring-occurrence generator
  (`generateUpcomingGames`, `getWeekNumber`, `DAY_MAP`).
* `src/src/hooks/useGroups.js` — `createGroup`, `joinGroup`, `leaveGroup`.
* `src/src/hooks/useGroupAdmin.js` — `updateGroupSettings`, `removeMember`,
  `transferAdmin`.
* `src/src/App.jsx` — `getPlayerCounts`.

Modelling conventions:

* JavaScript `Date` values are modelled as integer day numbers with day 0 =
  1970-01-01 (a Thursday), so `Date.prototype.getDay()` becomes
  `(d + 4) % 7` (Int `%` is Euclidean mod, matching what the source computes
  on its nonnegative operands).  Calendar conversions (needed by the monthly branch and
  by `getWeekNumber`) follow ECMAScript `MakeDay` semantics: a civil triple
  with an out-of-range day-of-month spills linearly into following months.
* Finer-grained instants (Firestore `serverTimestamp()`, `new Date()` in
  `updateGroupSettings`) are integer minutes; a stored occurrence date at
  local midnight of day `d` is the instant `d * 1440`.
* The wall clock read by the source (`new Date()`), and the authenticated
  user id (`auth.currentUser.uid`), are explicit parameters.
* Firestore document ids that the source builds by string interpolation are
  modelled by the underlying key tuples: a `group_members` doc id
  `` `${userId}_${groupId}` `` becomes the pair `(userId, groupId)`, and a
  `games` doc id `` `${groupId}_${isoDate}` `` becomes `(groupId, day)`.
  Where the source orders by the literal doc-id string (the tie-break of the
  `orderBy('joined_at')` query), the string is reconstructed explicitly.
-/

namespace Mahjong

/-- JavaScript `Date.prototype.getDay()` for a day number (day 0 = 1970-01-01,
a Thursday): 0 = Sunday … 6 = Saturday. -/
def jsGetDay (d : Int) : Int := (d + 4) % 7

/-- Day number of the civil date `y-m-d` (month 1–12), linear in `d` so that a
day-of-month beyond the month length spills into following months exactly as
ECMAScript `MakeDay` does. -/
def daysFromCivil (y m d : Int) : Int :=
  let yy := y - (if m ≤ 2 then 1 else 0)
  let era := yy.fdiv 400
  let yoe := yy - era * 400
  let mp := (m + 9) % 12
  let doy := (153 * mp + 2).fdiv 5 + d - 1
  let doe := yoe * 365 + yoe.fdiv 4 - yoe.fdiv 100 + doy
  era * 146097 + doe - 719468

/-- Civil date `(year, month, day)` of a day number (month 1–12). -/
def civilFromDays (z0 : Int) : Int × Int × Int :=
  let z := z0 + 719468
  let era := z.fdiv 146097
  let doe := z - era * 146097
  let yoe := (doe - doe.fdiv 1460 + doe.fdiv 36524 - doe.fdiv 146096).fdiv 365
  let y := yoe + era * 400
  let doy := doe - (365 * yoe + yoe.fdiv 4 - yoe.fdiv 100)
  let mp := (5 * doy + 2).fdiv 153
  let dd := doy - (153 * mp + 2).fdiv 5 + 1
  let mm := mp + (if mp < 10 then 3 else -9)
  (y + (if mm ≤ 2 then 1 else 0), mm, dd)

/-- The `(year, month)` pair of a day number, for same-calendar-month tests. -/
def monthOf (z : Int) : Int × Int :=
  let c := civilFromDays z
  (c.1, c.2.1)

/-- The monthly branch of `generateUpcomingGames` (groupUtils.js lines
128-132): `nextMonth.setMonth(getMonth() + 1); nextMonth.setDate(1)`.
`setMonth` keeps the day-of-month, letting it spill past a shorter month as
ECMAScript arithmetic does; `setDate(1)` then moves to the first of the month
the spilled date landed in. -/
def jsFirstOfNextMonth (z : Int) : Int :=
  let c := civilFromDays z
  let y := c.1
  let m := c.2.1
  let d := c.2.2
  let y1 := if m = 12 then y + 1 else y
  let m1 := if m = 12 then 1 else m + 1
  let z1 := daysFromCivil y1 m1 d
  let c1 := civilFromDays z1
  daysFromCivil c1.1 c1.2.1 1

/-- `getWeekNumber` from groupUtils.js lines 188-194: ISO-style week number of
the year, computed through the Thursday of the date's week. -/
def getWeekNumber (z : Int) : Int :=
  let dayNum := if jsGetDay z = 0 then 7 else jsGetDay z
  let z4 := z + 4 - dayNum
  let y := (civilFromDays z4).1
  let yearStart := daysFromCivil y 1 1
  (z4 - yearStart + 1 + 6).fdiv 7

/-- `DAY_MAP` from groupUtils.js lines 21-29. -/
def DAY_MAP : List (String × Int) :=
  [("Sunday", 0), ("Monday", 1), ("Tuesday", 2), ("Wednesday", 3),
   ("Thursday", 4), ("Friday", 5), ("Saturday", 6)]

/-- Lookup in `DAY_MAP`; `DAY_MAP[day]` is `undefined` (here `none`) for any
string that is not one of the seven weekday names. -/
def dayMapLookup (s : String) : Option Int :=
  (DAY_MAP.find? (fun p => p.1 == s)).map (fun p => p.2)

/-- The group-info argument of `generateUpcomingGames`.  `none` models a
JavaScript field that is `undefined`. -/
structure GroupInfo where
  id : String
  game_days : Option (List String)
  day_of_week : Option String
  time : String
  frequency : Option String
deriving DecidableEq

/-- JavaScript `x || dflt` for an optional string: `undefined` and the empty
string are falsy. -/
def jsStrOr (x : Option String) (dflt : String) : String :=
  match x with
  | some s => if s = "" then dflt else s
  | none => dflt

/-- `groupInfo.game_days || [groupInfo.day_of_week || 'Thursday']`
(groupUtils.js line 97).  An array is always truthy, even when empty. -/
def effGameDays (g : GroupInfo) : List String :=
  match g.game_days with
  | some l => l
  | none => [jsStrOr g.day_of_week "Thursday"]

/-- Insert `x` into a list after every element `y` with `le y x`: the
insertion step of a stable insertion sort. -/
def sinsert {α : Type} (le : α → α → Bool) (x : α) : List α → List α
  | [] => [x]
  | y :: ys => if le y x then y :: sinsert le x ys else x :: y :: ys

/-- Stable sort by a boolean comparator, modelling JavaScript
`Array.prototype.sort` with a consistent comparator (ES2019 requires sort to
be stable, and a stable sort result is unique, so insertion sort reproduces
it exactly). -/
def jsSortBy {α : Type} (le : α → α → Bool) (l : List α) : List α :=
  l.foldl (fun acc x => sinsert le x acc) []

/-- `gameDays.map(day => DAY_MAP[day] ?? 4).sort((a, b) => a - b)`
(groupUtils.js line 101). -/
def targetDaysOf (g : GroupInfo) : List Int :=
  jsSortBy (fun a b => decide (a ≤ b))
    ((effGameDays g).map (fun day => (dayMapLookup day).getD 4))

/-- One generated game object (groupUtils.js lines 160-168).  The source id
string `` `${groupInfo.id}_${date}` `` is modelled by the pair
`(groupInfo.id, date)`. -/
structure SGame where
  id : String × Int
  group_id : String
  date : Int
  time : String
  host : Option String
  responses : List String
deriving DecidableEq

/-- The candidate date for one target weekday in the week of `currentDate`
(groupUtils.js lines 143-152). -/
def gameDateFor (today currentDate targetDay : Int) : Int :=
  if (targetDay - jsGetDay currentDate + 7) % 7 > 0 ∨
      ((targetDay - jsGetDay currentDate + 7) % 7 = 0 ∧
        currentDate ≥ today) then
    currentDate + (targetDay - jsGetDay currentDate + 7) % 7
  else
    currentDate + (targetDay - jsGetDay currentDate + 7) % 7 + 7

/-- Append one candidate game, subject to the `gameDate >= today` guard and
the duplicate-id check (groupUtils.js lines 155-170). -/
def pushGame (grp : GroupInfo) (today : Int) (games : List SGame)
    (gameDate : Int) : List SGame :=
  if gameDate ≥ today then
    if (games.find? (fun g => g.id == (grp.id, gameDate))).isSome then games
    else
      games ++ [{ id := (grp.id, gameDate), group_id := grp.id,
                  date := gameDate, time := grp.time, host := none,
                  responses := [] }]
  else games

/-- The inner `for (const targetDay of targetDays)` loop of one week
(groupUtils.js lines 141-171). -/
def genWeek (grp : GroupInfo) (today : Int) (targetDays : List Int)
    (currentDate : Int) (games : List SGame) : List SGame :=
  targetDays.foldl
    (fun gs td => pushGame grp today gs (gameDateFor today currentDate td)) games

/-- The mutable state of the `while (weekCount < weeksCount)` loop. -/
structure GenState where
  games : List SGame
  currentDate : Int
  weekCount : Nat
  lastWeekNumber : Int
deriving DecidableEq

/-- The `while (weekCount < weeksCount)` loop of `generateUpcomingGames`
(groupUtils.js lines 112-175), with explicit fuel.  The fuel given by
`generateUpcomingGames` strictly exceeds the iteration count of the source
loop (which needs at most two iterations per counted week), so exhaustion is
never reached on the source's inputs. -/
def genLoop (grp : GroupInfo) (today : Int) (frequency : String)
    (targetDays : List Int) (weeksCount : Nat) :
    Nat → GenState → List SGame
  | 0, s => s.games
  | fuel + 1, s =>
    if s.weekCount < weeksCount then
      if getWeekNumber s.currentDate ≠ s.lastWeekNumber then
        if frequency = "biweekly" ∧ s.weekCount % 2 ≠ 0 then
          genLoop grp today frequency targetDays weeksCount fuel
            { s with lastWeekNumber := getWeekNumber s.currentDate,
                     weekCount := s.weekCount + 1,
                     currentDate := s.currentDate + 7 }
        else if frequency = "monthly" ∧ s.weekCount > 0 then
          genLoop grp today frequency targetDays weeksCount fuel
            { s with lastWeekNumber := getWeekNumber s.currentDate,
                     weekCount := s.weekCount + 1,
                     currentDate := jsFirstOfNextMonth s.currentDate }
        else
          genLoop grp today frequency targetDays weeksCount fuel
            { games := genWeek grp today targetDays s.currentDate s.games,
              currentDate := s.currentDate + 7,
              weekCount := s.weekCount + 1,
              lastWeekNumber := getWeekNumber s.currentDate }
      else
        genLoop grp today frequency targetDays weeksCount fuel
          { s with games := genWeek grp today targetDays s.currentDate s.games,
                   currentDate := s.currentDate + 7 }
    else s.games

/-- `generateUpcomingGames(groupInfo, weeksCount)` (groupUtils.js lines
96-181).  `today` is the wall-clock date the source reads via `new Date()`
normalized to midnight, injected here as a day number. -/
def generateUpcomingGames (grp : GroupInfo) (weeksCount : Nat) (today : Int) :
    List SGame :=
  let targetDays := targetDaysOf grp
  let frequency := jsStrOr grp.frequency "weekly"
  let games := genLoop grp today frequency targetDays weeksCount
    (4 * weeksCount + 8)
    { games := [], currentDate := today, weekCount := 0, lastWeekNumber := -1 }
  (jsSortBy (fun a b => decide (a.date ≤ b.date)) games).take
    (weeksCount * targetDays.length)

/-- One element of the `responses` array read by `getPlayerCounts`. -/
structure AttendanceResponse where
  user_id : String
  status : String
deriving DecidableEq

/-- The alert object built by `getPlayerCounts`. -/
structure GameAlert where
  type : String
  text : String
deriving DecidableEq

/-- The record returned by `getPlayerCounts`. -/
structure PlayerCounts where
  message : String
  alert : Option GameAlert
  going : Nat
  maybe : Nat
deriving DecidableEq

/-- `getPlayerCounts(responses)` from App.jsx lines 326-349. -/
def getPlayerCounts (responses : List AttendanceResponse) : PlayerCounts :=
  let going := (responses.filter (fun r => r.status == "going")).length
  let maybe := (responses.filter (fun r => r.status == "maybe")).length
  let message := toString going ++ " going" ++
    (if maybe > 0 then " / " ++ toString maybe ++ " maybe" else "")
  let alert : Option GameAlert :=
    if 4 ≤ going ∧ going < 5 then
      some { type := "success", text := "Table 1 ready!" }
    else if 5 ≤ going ∧ going ≤ 7 then
      some { type := "warning",
             text := "Need " ++ toString (8 - going) ++ " more for Table 2!" }
    else if 8 ≤ going then
      some { type := "success", text := "Table 1 & 2 full!" }
    else if going < 4 then
      some { type := "info",
             text := "Need " ++ toString (4 - going) ++ " more to play" }
    else none
  { message := message, alert := alert, going := going, maybe := maybe }

/-- Modelled from the spec: the tier table of §4.5 (`capacityHint`), written
directly from the spec's words, to be compared with `getPlayerCounts`. -/
def capacityHintSpec (going : Nat) : Option GameAlert :=
  if going < 4 then
    some { type := "info",
           text := "Need " ++ toString (4 - going) ++ " more to play" }
  else if going = 4 then
    some { type := "success", text := "Table 1 ready!" }
  else if going ≤ 7 then
    some { type := "warning",
           text := "Need " ++ toString (8 - going) ++ " more for Table 2!" }
  else
    some { type := "success", text := "Table 1 & 2 full!" }

/-! ## The persisted store

Firestore collections are modelled as association lists keyed by the
document-id data.  `groups` is keyed by the group id, `group_members` by the
`(user_id, group_id)` pair underlying the `` `${userId}_${groupId}` `` doc
id, and `games` by the `(group_id, day)` pair underlying
`` `${groupId}_${isoDate}` ``.  The `users` collection is read only for a
member's display name.  List position carries no meaning; the one query the
source orders (`orderBy('joined_at')`) is sorted explicitly below, with
Firestore's documented doc-id tie-break. -/

/-- A document of the `groups` collection (created by useGroups.js lines
132-143). -/
structure GroupDoc where
  group_name : String
  game_days : Option (List String)
  time : String
  timezone : String
  frequency : Option String
  admin_id : String
  invite_code : String
  member_count : Int
  created_at : Int
  updated_at : Int
deriving DecidableEq

/-- A document of the `group_members` collection (useGroups.js lines
148-153). -/
structure MemberDoc where
  user_id : String
  group_id : String
  is_admin : Bool
  joined_at : Int
deriving DecidableEq

/-- A document of the `games` collection (useGroups.js lines 165-173).  The
`date` field holds the stored instant in minutes: a generated occurrence on
day `d` is stored as `d * 1440` (its midnight). -/
structure GameDoc where
  group_id : String
  date : Int
  time : String
  host_id : Option String
  host_name : Option String
  host_address : Option String
  created_at : Int
deriving DecidableEq

/-- The whole backing store. -/
structure Store where
  groups : List (String × GroupDoc)
  members : List ((String × String) × MemberDoc)
  games : List ((String × Int) × GameDoc)
  users : List (String × String)
deriving DecidableEq

/-- Association-list read: `getDoc`. -/
def alookup {κ α : Type} [DecidableEq κ] (l : List (κ × α)) (k : κ) :
    Option α :=
  (l.find? (fun p => decide (p.1 = k))).map (fun p => p.2)

/-- Association-list delete: `batch.delete`, a no-op on a missing key. -/
def adel {κ α : Type} [DecidableEq κ] (l : List (κ × α)) (k : κ) :
    List (κ × α) :=
  l.filter (fun p => decide (p.1 ≠ k))

/-- Association-list overwrite: `batch.set` (creates or replaces). -/
def aset {κ α : Type} [DecidableEq κ] (l : List (κ × α)) (k : κ) (v : α) :
    List (κ × α) :=
  adel l k ++ [(k, v)]

/-- Association-list field update: `batch.update`/`updateDoc` on a present
key; a missing key is left untouched here and the operations below return
the source's catch-branch failure in the one place the source can issue an
update against an absent document. -/
def aupd {κ α : Type} [DecidableEq κ] (l : List (κ × α)) (k : κ)
    (f : α → α) : List (κ × α) :=
  l.map (fun p => if p.1 = k then (p.1, f p.2) else p)

/-- The members of one group: the `where('group_id', '==', groupId)` query on
`group_members`. -/
def membersOf (s : Store) (gid : String) :
    List ((String × String) × MemberDoc) :=
  s.members.filter (fun p => decide (p.2.group_id = gid))

/-- The literal Firestore document id of a membership. -/
def memberDocId (k : String × String) : String := k.1 ++ "_" ++ k.2

/-- Lexicographic order on character lists by code point, modelling the
byte order Firestore uses on (ASCII) document ids. -/
def charListLe : List Char → List Char → Bool
  | [], _ => true
  | _ :: _, [] => false
  | a :: as, b :: bs =>
    if a.toNat < b.toNat then true
    else if b.toNat < a.toNat then false
    else charListLe as bs

/-- Lexicographic order on strings by code point. -/
def strLe (a b : String) : Bool := charListLe a.data b.data

/-- The ordering of the `orderBy('joined_at', 'asc')` query: ascending
`joined_at`, with Firestore's tie-break by document id ascending. -/
def memberLe (a b : (String × String) × MemberDoc) : Bool :=
  decide (a.2.joined_at < b.2.joined_at ∨
    (a.2.joined_at = b.2.joined_at ∧
      strLe (memberDocId a.1) (memberDocId b.1) = true))

/-- The members of one group as returned by the ordered query of
useGroups.js lines 274-279. -/
def membersSortedByJoin (s : Store) (gid : String) :
    List ((String × String) × MemberDoc) :=
  jsSortBy memberLe (membersOf s gid)

/-- The games of one group: the `where('group_id', '==', groupId)` query on
`games`. -/
def gamesOf (s : Store) (gid : String) : List ((String × Int) × GameDoc) :=
  s.games.filter (fun p => decide (p.2.group_id = gid))

/-- Result object of `removeMember`, `transferAdmin` and
`updateGroupSettings`. -/
structure SimpleResult where
  success : Bool
  error : Option String
deriving DecidableEq

/-- Result object of `createGroup`. -/
structure CreateResult where
  success : Bool
  error : Option String
  groupId : Option String
  inviteCode : Option String
deriving DecidableEq

/-- Result object of `joinGroup`; `alreadyMember` is present (`some true`)
only on the idempotent path. -/
structure JoinResult where
  success : Bool
  error : Option String
  groupId : Option String
  alreadyMember : Option Bool
deriving DecidableEq

/-- Result object of `leaveGroup`; `wasAdmin`/`newAdminName` are present only
on the success path. -/
structure LeaveResult where
  success : Bool
  error : Option String
  wasAdmin : Option Bool
  newAdminName : Option String
deriving DecidableEq

/-- The `groupData` argument of `createGroup`. -/
structure GroupData where
  name : String
  gameDays : List String
  time : String
  timezone : String
  frequency : String
deriving DecidableEq

/-- The `games` document written for one generated game (useGroups.js lines
165-173 and useGroupAdmin.js lines 81-89): the date is stored as the
instant of the game-day midnight, the host fields null. -/
def storedGameDoc (gid : String) (now : Int) (game : SGame) : GameDoc :=
  { group_id := gid, date := game.date * 1440, time := game.time,
    host_id := none, host_name := none, host_address := none,
    created_at := now }

/-- `createGroup(groupData)` from useGroups.js lines 118-187.  The randomly
generated `groupId` and `inviteCode`, the server timestamp `now` (minutes)
and the wall-clock day `today` are injected. -/
def createGroup (s : Store) (uid : String) (gd : GroupData)
    (groupId inviteCode : String) (now today : Int) : CreateResult × Store :=
  let groupDoc : GroupDoc :=
    { group_name := gd.name, game_days := some gd.gameDays, time := gd.time,
      timezone := gd.timezone, frequency := some gd.frequency,
      admin_id := uid, invite_code := inviteCode, member_count := 1,
      created_at := now, updated_at := now }
  let memberDoc : MemberDoc :=
    { user_id := uid, group_id := groupId, is_admin := true, joined_at := now }
  let games := generateUpcomingGames
    { id := groupId, game_days := some gd.gameDays, day_of_week := none,
      time := gd.time, frequency := some gd.frequency } 8 today
  let s1 := { s with groups := aset s.groups groupId groupDoc }
  let s2 := { s1 with members := aset s1.members (uid, groupId) memberDoc }
  let s3 := games.foldl
    (fun st game =>
      { st with
        games := aset st.games game.id (storedGameDoc groupId now game) }) s2
  ({ success := true, error := none, groupId := some groupId,
     inviteCode := some inviteCode }, s3)

/-- `joinGroup(inviteCodeOrId)` from useGroups.js lines 192-249: resolve by
document id first, then by invite code (uppercased; the first matching doc in
id order); return idempotent success when the membership already exists;
otherwise insert the membership and increment `member_count`. -/
def joinGroup (s : Store) (uid inviteCodeOrId : String) (now : Int) :
    JoinResult × Store :=
  let resolved : Option String :=
    match alookup s.groups inviteCodeOrId with
    | some _ => some inviteCodeOrId
    | none =>
      ((jsSortBy (fun a b => strLe a.1 b.1)
          (s.groups.filter
            (fun p => decide (p.2.invite_code = inviteCodeOrId.toUpper)))).head?).map
        (fun p => p.1)
  match resolved with
  | none =>
    ({ success := false,
       error := some "Invalid invite code. Please check and try again.",
       groupId := none, alreadyMember := none }, s)
  | some gid =>
    if (alookup s.members (uid, gid)).isSome then
      ({ success := true, error := none, groupId := some gid,
         alreadyMember := some true }, s)
    else
      let mdoc : MemberDoc :=
        { user_id := uid, group_id := gid, is_admin := false,
          joined_at := now }
      let s1 := { s with members := aset s.members (uid, gid) mdoc }
      let s2 := { s1 with groups := (aupd s1.groups gid
        (fun d => { d with member_count := d.member_count + 1,
                           updated_at := now })) }
      ({ success := true, error := none, groupId := some gid,
         alreadyMember := none }, s2)

/-- `leaveGroup(groupId)` from useGroups.js lines 254-338.  There is no
membership check: a non-member of an existing group falls through to the
delete-membership (no-op) and decrement writes.  When the leaver is the
admin and no other member exists, the batch deletes the group and its games;
the decrement `update` that the source would also enqueue when
`member_count > 1` would then target a document deleted in the same batch,
so the commit throws and the catch branch returns the generic failure with
no write applied. -/
def leaveGroup (s : Store) (uid gid : String) (now : Int) :
    LeaveResult × Store :=
  match alookup s.groups gid with
  | none =>
    ({ success := false, error := some "Group not found.",
       wasAdmin := none, newAdminName := none }, s)
  | some g =>
    if g.admin_id = uid then
      match (membersSortedByJoin s gid).filter
          (fun p => decide (p.2.user_id ≠ uid)) with
      | newAdmin :: _ =>
        let newAdminId := newAdmin.2.user_id
        let s1 := { s with groups := (aupd s.groups gid
          (fun d => { d with admin_id := newAdminId, updated_at := now })) }
        let s2 := { s1 with members := (aupd s1.members newAdmin.1
          (fun m => { m with is_admin := true })) }
        let s3 := { s2 with members := adel s2.members (uid, gid) }
        let s4 := if g.member_count > 1 then
            { s3 with groups := (aupd s3.groups gid
              (fun d => { d with member_count := d.member_count - 1,
                                 updated_at := now })) }
          else s3
        ({ success := true, error := none, wasAdmin := some true,
           newAdminName := alookup s.users newAdminId }, s4)
      | [] =>
        if g.member_count > 1 then
          ({ success := false,
             error := some "Failed to leave group. Please try again.",
             wasAdmin := none, newAdminName := none }, s)
        else
          let s1 := { s with groups := adel s.groups gid }
          let s2 := { s1 with games := (s1.games.filter
            (fun p => decide (p.2.group_id ≠ gid))) }
          let s3 := { s2 with members := adel s2.members (uid, gid) }
          ({ success := true, error := none, wasAdmin := some true,
             newAdminName := none }, s3)
    else
      let s1 := { s with members := adel s.members (uid, gid) }
      let s2 := { s1 with groups := (aupd s1.groups gid
        (fun d => { d with member_count := d.member_count - 1,
                           updated_at := now })) }
      ({ success := true, error := none, wasAdmin := some false,
         newAdminName := none }, s2)

/-- `removeMember(groupId, memberId)` from useGroupAdmin.js lines 139-179.
Note the source checks the caller is the admin and not the target, but never
that the target actually holds a membership: the delete is a no-op then,
while `member_count` is still decremented. -/
def removeMember (s : Store) (uid gid memberId : String) (now : Int) :
    SimpleResult × Store :=
  match alookup s.groups gid with
  | none => ({ success := false, error := some "Group not found." }, s)
  | some g =>
    if g.admin_id ≠ uid then
      ({ success := false,
         error := some "Only the admin can remove members." }, s)
    else if memberId = uid then
      ({ success := false,
         error := some
           "You cannot remove yourself. Use \"Leave Group\" instead." }, s)
    else
      let s1 := { s with members := adel s.members (memberId, gid) }
      let s2 := { s1 with groups := (aupd s1.groups gid
        (fun d => { d with member_count := d.member_count - 1,
                           updated_at := now })) }
      ({ success := true, error := none }, s2)

/-- `transferAdmin(groupId, newAdminId)` from useGroupAdmin.js lines 248-298.
The batch updates the caller's own membership doc; if that document does not
exist the commit throws and the catch branch returns the generic failure
with no write applied. -/
def transferAdmin (s : Store) (uid gid newAdminId : String) (now : Int) :
    SimpleResult × Store :=
  match alookup s.groups gid with
  | none => ({ success := false, error := some "Group not found." }, s)
  | some g =>
    if g.admin_id ≠ uid then
      ({ success := false,
         error := some "Only the current admin can transfer admin role." }, s)
    else if (alookup s.members (newAdminId, gid)).isNone then
      ({ success := false,
         error := some "That user is not a member of this group." }, s)
    else if (alookup s.members (uid, gid)).isNone then
      ({ success := false,
         error := some "Failed to transfer admin role. Please try again." }, s)
    else
      let s1 := { s with groups := (aupd s.groups gid
        (fun d => { d with admin_id := newAdminId, updated_at := now })) }
      let s2 := { s1 with members := (aupd s1.members (uid, gid)
        (fun m => { m with is_admin := false })) }
      let s3 := { s2 with members := (aupd s2.members (newAdminId, gid)
        (fun m => { m with is_admin := true })) }
      ({ success := true, error := none }, s3)

/-- The `updates` argument of `updateGroupSettings`; `none` models an absent
key. -/
structure SettingsUpdate where
  group_name : Option String
  game_days : Option (List String)
  time : Option String
  timezone : Option String
  frequency : Option String
deriving DecidableEq

/-- The `{ ...updates }` object-spread merge of useGroupAdmin.js line 47:
every present key replaces the stored field, with no truthiness filtering. -/
def applyUpdates (d : GroupDoc) (u : SettingsUpdate) : GroupDoc :=
  { d with
    group_name := u.group_name.getD d.group_name,
    game_days := match u.game_days with
      | some l => some l
      | none => d.game_days,
    time := u.time.getD d.time,
    timezone := u.timezone.getD d.timezone,
    frequency := match u.frequency with
      | some f => some f
      | none => d.frequency }

/-- JavaScript truthiness of an optional string (`undefined` and `""` are
falsy). -/
def strTruthy (x : Option String) : Bool :=
  match x with
  | some st => st ≠ ""
  | none => false

/-- The groupInfo handed to `generateUpcomingGames` by `updateGroupSettings`
(useGroupAdmin.js lines 72-77): each schedule field comes from `updates`
when truthy, else from the group document fetched before the merge. -/
def regenSpecOf (gid : String) (g : GroupDoc) (u : SettingsUpdate) :
    GroupInfo :=
  { id := gid,
    game_days := match u.game_days with
      | some l => some l
      | none => g.game_days,
    day_of_week := none,
    time := jsStrOr u.time g.time,
    frequency := if strTruthy u.frequency then u.frequency else g.frequency }

/-- `updateGroupSettings(groupId, updates)` from useGroupAdmin.js lines
28-100.  The settings merge commits first (`updateDoc`); if a schedule field
was in `updates` (JavaScript truthiness: an array, even empty, is truthy; a
string must be non-empty), a second batch deletes the group's games dated
strictly after `now` and re-inserts freshly generated games keyed by
`(groupId, day)`, overwriting any record already stored under the same key.
The regeneration reads the schedule from `updates` with fallback to the
group document fetched before the merge. -/
def updateGroupSettings (s : Store) (uid gid : String) (u : SettingsUpdate)
    (now : Int) : SimpleResult × Store :=
  match alookup s.groups gid with
  | none => ({ success := false, error := some "Group not found." }, s)
  | some g =>
    if g.admin_id ≠ uid then
      ({ success := false,
         error := some "Only the admin can update group settings." }, s)
    else
      let s1 := { s with groups := (aupd s.groups gid
        (fun d => { applyUpdates d u with updated_at := now })) }
      if u.game_days.isSome ∨ strTruthy u.time ∨ strTruthy u.frequency then
        let today := now.fdiv 1440
        let newGames := generateUpcomingGames (regenSpecOf gid g u) 8 today
        let s2 := { s1 with games := (s1.games.filter
          (fun p => decide (¬ (p.2.group_id = gid ∧ p.2.date > now)))) }
        let s3 := newGames.foldl
          (fun st game =>
            { st with
              games :=
                aset st.games game.id (storedGameDoc gid now game) }) s2
        ({ success := true, error := none }, s3)
      else
        ({ success := true, error := none }, s1)

/-! ## The per-group lifecycle protocol (claim C1) -/

/-- Well-formedness of the store: collection keys are unique and every
document's identifying fields match its key. -/
def storeWF (s : Store) : Prop :=
  (s.groups.map (fun p => p.1)).Nodup ∧
  (s.members.map (fun p => p.1)).Nodup ∧
  (s.games.map (fun p => p.1)).Nodup ∧
  (∀ p ∈ s.members, p.1 = (p.2.user_id, p.2.group_id)) ∧
  (∀ p ∈ s.games, p.2.group_id = p.1.1 ∧ p.2.date = p.1.2 * 1440)

instance storeWF.instDecidable (s : Store) : Decidable (storeWF s) := by
  unfold storeWF
  infer_instance

/-- The consistency invariant of one group, as the spec states it: if the
group document exists, its `member_count` equals the number of Membership
records referencing the group and exactly one of those records is flagged
`is_admin` with the group's `admin_id` as its user; if the group document
does not exist, no Membership references it. -/
def groupInvariant (s : Store) (gid : String) : Prop :=
  match alookup s.groups gid with
  | some g =>
      g.member_count = ((membersOf s gid).length : Int) ∧
      ∃ p ∈ membersOf s gid, p.2.is_admin = true ∧
        p.2.user_id = g.admin_id ∧
        ∀ q ∈ membersOf s gid, q.2.is_admin = true → q = p
  | none => membersOf s gid = []

instance groupInvariant.instDecidable (s : Store) (gid : String) :
    Decidable (groupInvariant s gid) := by
  unfold groupInvariant
  cases alookup s.groups gid <;> infer_instance

/-- One lifecycle operation aimed at a fixed group id. -/
inductive GroupOp where
  | join (uid : String) (now : Int)
  | leave (uid : String) (now : Int)
  | remove (uid target : String) (now : Int)
  | transfer (uid target : String) (now : Int)
deriving DecidableEq

/-- The store component of running one operation. -/
def applyGroupOp (gid : String) (s : Store) : GroupOp → Store
  | GroupOp.join uid now => (joinGroup s uid gid now).2
  | GroupOp.leave uid now => (leaveGroup s uid gid now).2
  | GroupOp.remove uid target now => (removeMember s uid gid target now).2
  | GroupOp.transfer uid target now => (transferAdmin s uid gid target now).2

/-- The documented acting precondition of each operation: a leaver must
hold a membership and a removal target must hold one (the source checks
neither, which is what breaks the raw claim); `joinGroup` and
`transferAdmin` check everything themselves and need no side condition. -/
def groupOpPre (gid : String) (s : Store) : GroupOp → Prop
  | GroupOp.join _ _ => True
  | GroupOp.leave uid _ => (alookup s.members (uid, gid)).isSome = true
  | GroupOp.remove _ target _ =>
      (alookup s.members (target, gid)).isSome = true
  | GroupOp.transfer _ _ _ => True

instance groupOpPre.instDecidable (gid : String) (s : Store)
    (op : GroupOp) : Decidable (groupOpPre gid s op) := by
  cases op <;> unfold groupOpPre <;> infer_instance

/-- Run a sequence of operations left to right. -/
def applyGroupOps (gid : String) (s : Store) (ops : List GroupOp) : Store :=
  ops.foldl (applyGroupOp gid) s

/-- Every operation of the sequence meets its precondition in the state it
actually runs in. -/
def opsPre (gid : String) : Store → List GroupOp → Prop
  | _, [] => True
  | s, op :: ops =>
      groupOpPre gid s op ∧ opsPre gid (applyGroupOp gid s op) ops

instance opsPre.instDecidable (gid : String) :
    ∀ (s : Store) (ops : List GroupOp), Decidable (opsPre gid s ops)
  | _, [] => Decidable.isTrue trivial
  | s, op :: ops =>
      @instDecidableAnd _ _ (groupOpPre.instDecidable gid s op)
        (opsPre.instDecidable gid (applyGroupOp gid s op) ops)

/-! ## Concrete instances used in counterexamples and witnesses

Day number 19733 is Thursday 2024-01-11; 19730 is Monday 2024-01-08. -/

/-- A weekly schedule on two weekdays. -/
def giWeeklyTwoDays : GroupInfo :=
  ⟨"g1", some ["Monday", "Tuesday"], none, "19:00", some "weekly"⟩

/-- A monthly schedule on two weekdays. -/
def giMonthlyThuFri : GroupInfo :=
  ⟨"g1", some ["Thursday", "Friday"], none, "19:00", some "monthly"⟩

/-- A schedule whose `game_days` array is present but empty. -/
def giEmptyDays : GroupInfo := ⟨"g1", some [], none, "19:00", some "weekly"⟩

/-- A weekly single-weekday schedule. -/
def giWeeklyThu : GroupInfo :=
  ⟨"g1", some ["Thursday"], none, "19:00", some "weekly"⟩

/-- A group info with no `game_days` array and a `day_of_week` fallback. -/
def giNoDays : GroupInfo := ⟨"g1", none, some "Monday", "19:00", none⟩

/-- The single game the weekly Thursday schedule generates for horizon 1
starting on Thursday 2024-01-11. -/
def gameThu0 : SGame := ⟨("g1", 19733), "g1", 19733, "19:00", none, []⟩

/-- The empty store. -/
def emptyStore : Store := ⟨[], [], [], []⟩

/-- The creation payload of the concrete lifecycle runs. -/
def gd0 : GroupData :=
  ⟨"Mahjong Night", ["Thursday"], "19:00", "America/New_York", "weekly"⟩

/-- A group document whose admin is alice, with one member. -/
def g1Doc : GroupDoc :=
  { group_name := "Mahjong Night", game_days := some ["Thursday"],
    time := "19:00", timezone := "America/New_York",
    frequency := some "weekly", admin_id := "alice", invite_code := "ABC234",
    member_count := 1, created_at := 0, updated_at := 0 }

/-- The admin membership of alice in g1. -/
def aliceMember : MemberDoc := ⟨"alice", "g1", true, 0⟩

/-- A store holding one group with its single member. -/
def storeSolo : Store :=
  ⟨[("g1", g1Doc)], [(("alice", "g1"), aliceMember)], [], []⟩

/-- The group document of g1 with three members counted. -/
def g1Doc3 : GroupDoc := { g1Doc with member_count := 3 }

/-- A non-admin membership of carol, joined at the same instant as bob. -/
def carolMember : MemberDoc := ⟨"carol", "g1", false, 10⟩

/-- A non-admin membership of bob, joined at the same instant as carol. -/
def bobMember : MemberDoc := ⟨"bob", "g1", false, 10⟩

/-- A store with admin alice and the tied members bob and carol. -/
def storeTrio : Store :=
  ⟨[("g1", g1Doc3)],
   [(("alice", "g1"), aliceMember), (("carol", "g1"), carolMember),
    (("bob", "g1"), bobMember)],
   [], [("bob", "Bob"), ("carol", "Carol")]⟩

/-- A stored occurrence on day 19733 that already has a host. -/
def hostedGameToday : GameDoc :=
  ⟨"g1", 19733 * 1440, "19:00", some "bob", some "Bob", none, 0⟩

/-- A store whose group g1 has a hosted occurrence dated day 19733. -/
def storeHosted : Store :=
  ⟨[("g1", g1Doc)], [(("alice", "g1"), aliceMember)],
   [(("g1", 19733), hostedGameToday)], []⟩

/-- A settings update that touches the schedule (same single weekday). -/
def updThursday : SettingsUpdate := ⟨none, some ["Thursday"], none, none, none⟩

/-! ## Association-list lemmas -/

theorem alookup_nil {κ α : Type} [DecidableEq κ] (k : κ) :
    alookup ([] : List (κ × α)) k = none := rfl

theorem alookup_cons {κ α : Type} [DecidableEq κ] (k0 : κ) (v0 : α)
    (l : List (κ × α)) (k : κ) :
    alookup ((k0, v0) :: l) k = if k0 = k then some v0 else alookup l k := by
  by_cases h : k0 = k <;> simp [alookup, List.find?_cons, h]

theorem adel_nil {κ α : Type} [DecidableEq κ] (k : κ) :
    adel ([] : List (κ × α)) k = [] := rfl

theorem adel_cons {κ α : Type} [DecidableEq κ] (k0 : κ) (v0 : α)
    (l : List (κ × α)) (k : κ) :
    adel ((k0, v0) :: l) k =
      if k0 = k then adel l k else (k0, v0) :: adel l k := by
  by_cases h : k0 = k <;> simp [adel, List.filter_cons, h]

theorem aupd_nil {κ α : Type} [DecidableEq κ] (k : κ) (f : α → α) :
    aupd ([] : List (κ × α)) k f = [] := rfl

theorem aupd_cons {κ α : Type} [DecidableEq κ] (k0 : κ) (v0 : α)
    (l : List (κ × α)) (k : κ) (f : α → α) :
    aupd ((k0, v0) :: l) k f =
      (if k0 = k then (k0, f v0) else (k0, v0)) :: aupd l k f := by
  by_cases h : k0 = k <;> simp [aupd, h]

theorem alookup_append {κ α : Type} [DecidableEq κ] (l1 l2 : List (κ × α))
    (k : κ) :
    alookup (l1 ++ l2) k =
      ((alookup l1 k).rec (alookup l2 k) (fun v => some v) : Option α) := by
  induction l1 with
  | nil => rfl
  | cons p l ih =>
    obtain ⟨k0, v0⟩ := p
    by_cases h : k0 = k <;> simp [alookup_cons, h, ih]

theorem alookup_adel_self {κ α : Type} [DecidableEq κ] (l : List (κ × α))
    (k : κ) : alookup (adel l k) k = none := by
  induction l with
  | nil => rfl
  | cons p l ih =>
    obtain ⟨k0, v0⟩ := p
    rw [adel_cons]
    by_cases h : k0 = k
    · rw [if_pos h]
      exact ih
    · rw [if_neg h, alookup_cons, if_neg h]
      exact ih

theorem alookup_adel_ne {κ α : Type} [DecidableEq κ] (l : List (κ × α))
    (k k' : κ) (h : k' ≠ k) : alookup (adel l k) k' = alookup l k' := by
  induction l with
  | nil => rfl
  | cons p l ih =>
    obtain ⟨k0, v0⟩ := p
    rw [adel_cons]
    by_cases h0 : k0 = k
    · rw [if_pos h0, alookup_cons, if_neg (by rw [h0]; exact Ne.symm h)]
      exact ih
    · rw [if_neg h0, alookup_cons, alookup_cons]
      by_cases h1 : k0 = k'
      · rw [if_pos h1, if_pos h1]
      · rw [if_neg h1, if_neg h1]
        exact ih

theorem alookup_aset_self {κ α : Type} [DecidableEq κ] (l : List (κ × α))
    (k : κ) (v : α) : alookup (aset l k v) k = some v := by
  rw [aset, alookup_append, alookup_adel_self]
  simp [alookup_cons]

theorem alookup_aset_ne {κ α : Type} [DecidableEq κ] (l : List (κ × α))
    (k k' : κ) (v : α) (h : k' ≠ k) :
    alookup (aset l k v) k' = alookup l k' := by
  rw [aset, alookup_append, alookup_adel_ne l k k' h]
  cases halt : alookup l k' with
  | none => simp [alookup_cons, Ne.symm h, alookup_nil]
  | some w => simp

theorem alookup_aupd_self {κ α : Type} [DecidableEq κ] (l : List (κ × α))
    (k : κ) (f : α → α) :
    alookup (aupd l k f) k = (alookup l k).map f := by
  induction l with
  | nil => rfl
  | cons p l ih =>
    obtain ⟨k0, v0⟩ := p
    rw [aupd_cons]
    by_cases h : k0 = k
    · rw [if_pos h, alookup_cons, alookup_cons, if_pos h, if_pos h]
      rfl
    · rw [if_neg h, alookup_cons, alookup_cons, if_neg h, if_neg h]
      exact ih

theorem alookup_aupd_ne {κ α : Type} [DecidableEq κ] (l : List (κ × α))
    (k k' : κ) (f : α → α) (h : k' ≠ k) :
    alookup (aupd l k f) k' = alookup l k' := by
  induction l with
  | nil => rfl
  | cons p l ih =>
    obtain ⟨k0, v0⟩ := p
    rw [aupd_cons]
    by_cases h0 : k0 = k
    · rw [if_pos h0, alookup_cons, alookup_cons,
        if_neg (by rw [h0]; exact Ne.symm h), if_neg (by rw [h0]; exact Ne.symm h)]
      exact ih
    · rw [if_neg h0, alookup_cons, alookup_cons]
      by_cases h1 : k0 = k'
      · rw [if_pos h1, if_pos h1]
      · rw [if_neg h1, if_neg h1]
        exact ih

theorem alookup_isSome_of_mem {κ α : Type} [DecidableEq κ]
    {l : List (κ × α)} {p : κ × α} (h : p ∈ l) :
    (alookup l p.1).isSome := by
  induction l with
  | nil => cases h
  | cons q l ih =>
    obtain ⟨k0, v0⟩ := q
    rcases List.mem_cons.mp h with h | h
    · subst h
      simp [alookup_cons]
    · by_cases h0 : k0 = p.1 <;> simp [alookup_cons, h0, ih h]

theorem mem_of_alookup_eq_some {κ α : Type} [DecidableEq κ]
    {l : List (κ × α)} {k : κ} {v : α} (h : alookup l k = some v) :
    (k, v) ∈ l := by
  induction l with
  | nil => simp [alookup] at h
  | cons q l ih =>
    obtain ⟨k0, v0⟩ := q
    rw [alookup_cons] at h
    by_cases h0 : k0 = k
    · rw [if_pos h0] at h
      rw [h0] at *
      cases h
      exact List.mem_cons_self _ _
    · rw [if_neg h0] at h
      exact List.mem_cons_of_mem _ (ih h)

/-! ## Occurrence-generator lemmas -/

theorem gameDateFor_eq (today cd td : Int) (h : today ≤ cd) :
    gameDateFor today cd td = cd + (td - jsGetDay cd + 7) % 7 := by
  unfold gameDateFor
  split_ifs with hc
  · rfl
  · exfalso
    revert hc
    simp only [not_or, not_and, not_lt, ge_iff_le]
    intro hc
    rcases hc with ⟨h1, h2⟩
    unfold jsGetDay at h1 h2
    omega

theorem gameDateFor_lb (today cd td : Int) (h : today ≤ cd) :
    cd ≤ gameDateFor today cd td := by
  rw [gameDateFor_eq today cd td h]
  unfold jsGetDay
  omega

theorem gameDateFor_ub (today cd td : Int) (h : today ≤ cd) :
    gameDateFor today cd td < cd + 7 := by
  rw [gameDateFor_eq today cd td h]
  unfold jsGetDay
  omega

theorem jsGetDay_gameDateFor (today cd td : Int) (h0 : 0 ≤ td)
    (h7 : td < 7) : jsGetDay (gameDateFor today cd td) = td := by
  unfold gameDateFor jsGetDay
  split_ifs with hc <;> omega

theorem gameDateFor_inj (today cd : Int) {td1 td2 : Int} (h1 : 0 ≤ td1)
    (h2 : td1 < 7) (h3 : 0 ≤ td2) (h4 : td2 < 7) (hne : td1 ≠ td2) :
    gameDateFor today cd td1 ≠ gameDateFor today cd td2 := by
  intro he
  apply hne
  have hj := jsGetDay_gameDateFor today cd td1 h1 h2
  rw [he, jsGetDay_gameDateFor today cd td2 h3 h4] at hj
  exact hj.symm

theorem mem_pushGame {grp : GroupInfo} {today : Int} {gs : List SGame}
    {d : Int} {g : SGame} (h : g ∈ pushGame grp today gs d) :
    g ∈ gs ∨ (today ≤ d ∧
      g = { id := (grp.id, d), group_id := grp.id, date := d,
            time := grp.time, host := none, responses := [] }) := by
  unfold pushGame at h
  split_ifs at h with h1 h2
  · exact Or.inl h
  · rcases List.mem_append.mp h with h3 | h3
    · exact Or.inl h3
    · exact Or.inr ⟨h1, List.mem_singleton.mp h3⟩
  · exact Or.inl h

theorem pushGame_append_of_fresh {grp : GroupInfo} {today : Int}
    {gs : List SGame} {d : Int} (hd : today ≤ d)
    (hfresh : ∀ g ∈ gs, g.id ≠ (grp.id, d)) :
    pushGame grp today gs d =
      gs ++ [{ id := (grp.id, d), group_id := grp.id, date := d,
               time := grp.time, host := none, responses := [] }] := by
  unfold pushGame
  rw [if_pos hd]
  have hnone : (gs.find? (fun g => g.id == (grp.id, d))) = none := by
    rw [List.find?_eq_none]
    intro g hg
    simpa using hfresh g hg
  rw [hnone]
  rfl

theorem nodup_ids_pushGame {grp : GroupInfo} {today : Int} {gs : List SGame}
    {d : Int} (h : (gs.map (fun g => g.id)).Nodup) :
    ((pushGame grp today gs d).map (fun g => g.id)).Nodup := by
  unfold pushGame
  split_ifs with h1 h2
  · exact h
  · rw [List.map_append]
    rw [List.nodup_append]
    refine ⟨h, List.nodup_singleton _, ?_⟩
    intro x hx
    simp only [List.map_cons, List.map_nil, List.mem_singleton]
    intro hx1
    rw [List.find?_isSome] at h2
    push_neg at h2
    rcases List.mem_map.mp hx with ⟨g, hg, hgid⟩
    exact absurd (by simpa [hx1, hgid] : (g.id == ((grp.id, d) : String × Int)) = true) (by simpa using h2 g hg)
  · exact h

theorem genWeek_nil (grp : GroupInfo) (today cd : Int) (gs : List SGame) :
    genWeek grp today [] cd gs = gs := rfl

theorem genWeek_cons (grp : GroupInfo) (today cd td : Int) (tds : List Int)
    (gs : List SGame) :
    genWeek grp today (td :: tds) cd gs =
      genWeek grp today tds cd
        (pushGame grp today gs (gameDateFor today cd td)) := rfl

theorem mem_genWeek {grp : GroupInfo} {today cd : Int} {tds : List Int} :
    ∀ {gs : List SGame} {g : SGame}, g ∈ genWeek grp today tds cd gs →
    g ∈ gs ∨ (today ≤ g.date ∧ g.id = (grp.id, g.date) ∧
      g.group_id = grp.id ∧ ∃ td ∈ tds, g.date = gameDateFor today cd td) := by
  induction tds with
  | nil =>
    intro gs g h
    exact Or.inl h
  | cons td tds ih =>
    intro gs g h
    rw [genWeek_cons] at h
    rcases ih h with hg | ⟨h1, h2, h3, td', htd', h4⟩
    · rcases mem_pushGame hg with hg2 | ⟨hd, he⟩
      · exact Or.inl hg2
      · subst he
        exact Or.inr ⟨hd, rfl, rfl, td, List.mem_cons_self _ _, rfl⟩
    · exact Or.inr ⟨h1, h2, h3, td', List.mem_cons_of_mem _ htd', h4⟩

theorem nodup_ids_genWeek {grp : GroupInfo} {today cd : Int}
    {tds : List Int} :
    ∀ {gs : List SGame}, (gs.map (fun g => g.id)).Nodup →
    ((genWeek grp today tds cd gs).map (fun g => g.id)).Nodup := by
  induction tds with
  | nil =>
    intro gs h
    exact h
  | cons td tds ih =>
    intro gs h
    rw [genWeek_cons]
    exact ih (nodup_ids_pushGame h)

theorem genLoop_zero (grp : GroupInfo) (today : Int) (freq : String)
    (tds : List Int) (wc : Nat) (s : GenState) :
    genLoop grp today freq tds wc 0 s = s.games := rfl

theorem mem_genLoop {grp : GroupInfo} {today : Int} {freq : String}
    {tds : List Int} {wc : Nat}
    (htds : ∀ td ∈ tds, 0 ≤ td ∧ td < 7) :
    ∀ (fuel : Nat) (s : GenState) {g : SGame},
    g ∈ genLoop grp today freq tds wc fuel s →
    g ∈ s.games ∨ (today ≤ g.date ∧ g.id = (grp.id, g.date) ∧
      g.group_id = grp.id ∧ ∃ td ∈ tds, jsGetDay g.date = td) := by
  intro fuel
  induction fuel with
  | zero =>
    intro s g h
    exact Or.inl h
  | succ fuel ih =>
    intro s g h
    rw [genLoop] at h
    have hweek : ∀ cd : Int, g ∈ genWeek grp today tds cd s.games →
        g ∈ s.games ∨ (today ≤ g.date ∧ g.id = (grp.id, g.date) ∧
          g.group_id = grp.id ∧ ∃ td ∈ tds, jsGetDay g.date = td) := by
      intro cd hg
      rcases mem_genWeek hg with hold | ⟨hd, hidg, hgrp, td, htd, hdate⟩
      · exact Or.inl hold
      · refine Or.inr ⟨hd, hidg, hgrp, td, htd, ?_⟩
        rw [hdate]
        exact jsGetDay_gameDateFor today cd td (htds td htd).1 (htds td htd).2
    split_ifs at h with h1 h2 h3 h4
    · rcases ih _ h with hs | hprops
      · exact Or.inl hs
      · exact Or.inr hprops
    · rcases ih _ h with hs | hprops
      · exact Or.inl hs
      · exact Or.inr hprops
    · rcases ih _ h with hs | hprops
      · exact hweek _ hs
      · exact Or.inr hprops
    · rcases ih _ h with hs | hprops
      · exact hweek _ hs
      · exact Or.inr hprops
    · exact Or.inl h

theorem nodup_ids_genLoop {grp : GroupInfo} {today : Int} {freq : String}
    {tds : List Int} {wc : Nat} :
    ∀ (fuel : Nat) (s : GenState),
    (s.games.map (fun g => g.id)).Nodup →
    ((genLoop grp today freq tds wc fuel s).map (fun g => g.id)).Nodup := by
  intro fuel
  induction fuel with
  | zero =>
    intro s h
    exact h
  | succ fuel ih =>
    intro s h
    rw [genLoop]
    split_ifs with h1 h2 h3 h4
    · exact ih _ h
    · exact ih _ h
    · exact ih _ (nodup_ids_genWeek h)
    · exact ih _ (nodup_ids_genWeek h)
    · exact h

theorem genWeek_length_exact {grp : GroupInfo} {today cd : Int} :
    ∀ (tds : List Int) (gs : List SGame),
    (∀ td ∈ tds, 0 ≤ td ∧ td < 7) → tds.Nodup → today ≤ cd →
    (∀ g ∈ gs, g.id = (grp.id, g.date)) →
    (∀ g ∈ gs, ∀ td ∈ tds, g.date ≠ gameDateFor today cd td) →
    (genWeek grp today tds cd gs).length = gs.length + tds.length := by
  intro tds
  induction tds with
  | nil =>
    intro gs _ _ _ _ _
    simp [genWeek_nil]
  | cons td tds ih =>
    intro gs hbnd hnd hcd hid hfresh
    rw [genWeek_cons]
    have hd : today ≤ gameDateFor today cd td :=
      le_trans hcd (gameDateFor_lb today cd td hcd)
    have hfr : ∀ g ∈ gs, g.id ≠ (grp.id, gameDateFor today cd td) := by
      intro g hg he
      have hident := hid g hg
      have h2 := hfresh g hg td (List.mem_cons_self _ _)
      rw [hident] at he
      exact h2 (congrArg Prod.snd he)
    rw [pushGame_append_of_fresh hd hfr]
    have hbnd' : ∀ td' ∈ tds, 0 ≤ td' ∧ td' < 7 := by
      intro td' htd'
      exact hbnd td' (List.mem_cons_of_mem _ htd')
    have hnotmem := (List.nodup_cons.mp hnd).1
    have hnd' := (List.nodup_cons.mp hnd).2
    have hid' : ∀ g ∈ gs ++
        [{ id := (grp.id, gameDateFor today cd td), group_id := grp.id,
           date := gameDateFor today cd td, time := grp.time, host := none,
           responses := [] }], g.id = (grp.id, g.date) := by
      intro g hg
      rcases List.mem_append.mp hg with hg1 | hg1
      · exact hid g hg1
      · rw [List.mem_singleton.mp hg1]
    have hfresh' : ∀ g ∈ gs ++
        [{ id := (grp.id, gameDateFor today cd td), group_id := grp.id,
           date := gameDateFor today cd td, time := grp.time, host := none,
           responses := [] }], ∀ td' ∈ tds, g.date ≠ gameDateFor today cd td' := by
      intro g hg td' htd'
      rcases List.mem_append.mp hg with hg1 | hg1
      · exact hfresh g hg1 td' (List.mem_cons_of_mem _ htd')
      · rw [List.mem_singleton.mp hg1]
        have hne : td ≠ td' := by
          intro he
          exact hnotmem (he ▸ htd')
        exact gameDateFor_inj today cd (hbnd td (List.mem_cons_self _ _)).1
          (hbnd td (List.mem_cons_self _ _)).2 (hbnd' td' htd').1
          (hbnd' td' htd').2 hne
    rw [ih _ hbnd' hnd' hcd hid' hfresh']
    simp only [List.length_append, List.length_cons, List.length_nil,
      List.length_singleton]
    omega

theorem genLoop_weekly_length {grp : GroupInfo} {today : Int}
    {tds : List Int} {wc : Nat}
    (hbnd : ∀ td ∈ tds, 0 ≤ td ∧ td < 7) (hnd : tds.Nodup) :
    ∀ (fuel : Nat) (s : GenState), today ≤ s.currentDate →
    (∀ g ∈ s.games, g.id = (grp.id, g.date)) →
    (∀ g ∈ s.games, g.date < s.currentDate) →
    s.games.length + min fuel (wc - s.weekCount) * tds.length ≤
      (genLoop grp today "weekly" tds wc fuel s).length := by
  intro fuel
  induction fuel with
  | zero =>
    intro s _ _ _
    simp [genLoop_zero]
  | succ fuel ih =>
    intro s hcd hid hold
    rw [genLoop]
    split_ifs with h1 h2 h3 h4
    · exact absurd h3.1 (by decide)
    · exact absurd h4.1 (by decide)
    · -- week changed: generate, weekCount + 1
      have hfresh : ∀ g ∈ s.games, ∀ td ∈ tds,
          g.date ≠ gameDateFor today s.currentDate td := by
        intro g hg td htd
        have := hold g hg
        have h5 := gameDateFor_lb today s.currentDate td hcd
        omega
      have hlen := genWeek_length_exact tds s.games hbnd hnd hcd hid hfresh
      have hid' : ∀ g ∈ genWeek grp today tds s.currentDate s.games,
          g.id = (grp.id, g.date) := by
        intro g hg
        rcases mem_genWeek hg with hg1 | ⟨_, h5, _, _⟩
        · exact hid g hg1
        · exact h5
      have hold' : ∀ g ∈ genWeek grp today tds s.currentDate s.games,
          g.date < s.currentDate + 7 := by
        intro g hg
        rcases mem_genWeek hg with hg1 | ⟨_, _, _, td, _, h6⟩
        · have := hold g hg1
          omega
        · rw [h6]
          exact gameDateFor_ub today s.currentDate td hcd
      have hcd' : today ≤ s.currentDate + 7 := by omega
      have hih := ih
        ⟨genWeek grp today tds s.currentDate s.games, s.currentDate + 7,
         s.weekCount + 1, getWeekNumber s.currentDate⟩ hcd' hid' hold'
      simp only at hih
      rw [hlen] at hih
      have hmin : min (fuel + 1) (wc - s.weekCount) ≤
          min fuel (wc - (s.weekCount + 1)) + 1 := by omega
      have h5 : min (fuel + 1) (wc - s.weekCount) * tds.length ≤
          (min fuel (wc - (s.weekCount + 1)) + 1) * tds.length :=
        Nat.mul_le_mul_right _ hmin
      rw [Nat.succ_mul] at h5
      omega
    · -- same week: generate, weekCount unchanged
      have hfresh : ∀ g ∈ s.games, ∀ td ∈ tds,
          g.date ≠ gameDateFor today s.currentDate td := by
        intro g hg td htd
        have := hold g hg
        have h5 := gameDateFor_lb today s.currentDate td hcd
        omega
      have hlen := genWeek_length_exact tds s.games hbnd hnd hcd hid hfresh
      have hid' : ∀ g ∈ genWeek grp today tds s.currentDate s.games,
          g.id = (grp.id, g.date) := by
        intro g hg
        rcases mem_genWeek hg with hg1 | ⟨_, h5, _, _⟩
        · exact hid g hg1
        · exact h5
      have hold' : ∀ g ∈ genWeek grp today tds s.currentDate s.games,
          g.date < s.currentDate + 7 := by
        intro g hg
        rcases mem_genWeek hg with hg1 | ⟨_, _, _, td, _, h6⟩
        · have := hold g hg1
          omega
        · rw [h6]
          exact gameDateFor_ub today s.currentDate td hcd
      have hcd' : today ≤ s.currentDate + 7 := by omega
      have hih := ih
        ⟨genWeek grp today tds s.currentDate s.games, s.currentDate + 7,
         s.weekCount, s.lastWeekNumber⟩ hcd' hid' hold'
      simp only at hih
      rw [hlen] at hih
      have hmin : min (fuel + 1) (wc - s.weekCount) ≤
          min fuel (wc - s.weekCount) + 1 := by omega
      have h5 : min (fuel + 1) (wc - s.weekCount) * tds.length ≤
          (min fuel (wc - s.weekCount) + 1) * tds.length :=
        Nat.mul_le_mul_right _ hmin
      rw [Nat.succ_mul] at h5
      omega
    · -- weekCount ≥ wc
      have : min (fuel + 1) (wc - s.weekCount) = 0 := by omega
      simp [this]

/-- C8: for every list of attendance responses, the alert built by
`getPlayerCounts` realizes exactly the capacity-hint tier table: with g the
number of responses whose status is going, g < 4 gives the info alert
"Need (4-g) more to play", g = 4 gives "Table 1 ready!", 5 ≤ g ≤ 7 gives the
warning "Need (8-g) more for Table 2!", and g ≥ 8 gives "Table 1 & 2
full!" — in particular at the boundaries g = 3, 4, 5, 7, 8, 9. -/
theorem getPlayerCounts_capacity_tiers (responses : List AttendanceResponse) :
    (getPlayerCounts responses).alert =
      capacityHintSpec
        ((responses.filter (fun r => r.status == "going")).length) := by
  show (if 4 ≤ (responses.filter (fun r => r.status == "going")).length ∧
          (responses.filter (fun r => r.status == "going")).length < 5 then _
        else _) = _
  generalize (responses.filter (fun r => r.status == "going")).length = g
  unfold capacityHintSpec
  rcases Nat.lt_or_ge g 4 with h4 | h4
  · rw [if_neg (by omega), if_neg (by omega), if_neg (by omega),
      if_pos h4, if_pos h4]
  · rcases Nat.lt_or_ge g 5 with h5 | h5
    · rw [if_pos ⟨h4, h5⟩, if_neg (by omega), if_pos (by omega)]
    · rcases Nat.lt_or_ge g 8 with h8 | h8
      · rw [if_neg (by omega), if_pos (by omega), if_neg (by omega),
          if_neg (by omega), if_pos (by omega)]
      · rw [if_neg (by omega), if_neg (by omega), if_pos h8,
          if_neg (by omega), if_neg (by omega), if_neg (by omega)]

theorem adel_eq_of_alookup_none {κ α : Type} [DecidableEq κ]
    {l : List (κ × α)} {k : κ} (h : alookup l k = none) : adel l k = l := by
  induction l with
  | nil => rfl
  | cons p l ih =>
    obtain ⟨k0, v0⟩ := p
    rw [alookup_cons] at h
    by_cases h0 : k0 = k
    · rw [if_pos h0] at h
      cases h
    · rw [if_neg h0] at h
      rw [adel_cons, if_neg h0, ih h]

theorem alookup_eq_of_mem_nodup {κ α : Type} [DecidableEq κ]
    {l : List (κ × α)} {p : κ × α} (hmem : p ∈ l)
    (hnd : (l.map (fun q => q.1)).Nodup) : alookup l p.1 = some p.2 := by
  induction l with
  | nil => cases hmem
  | cons q l ih =>
    obtain ⟨k0, v0⟩ := q
    rw [List.map_cons, List.nodup_cons] at hnd
    rcases List.mem_cons.mp hmem with rfl | hmem2
    · rw [alookup_cons, if_pos rfl]
    · rw [alookup_cons]
      by_cases h0 : k0 = p.1
      · exfalso
        apply hnd.1
        rw [h0]
        exact List.mem_map.mpr ⟨p, hmem2, rfl⟩
      · rw [if_neg h0]
        exact ih hmem2 hnd.2

theorem filter_key_length_of_nodup {κ α : Type} [DecidableEq κ]
    {l : List (κ × α)} {k : κ} (hnd : (l.map (fun q => q.1)).Nodup)
    (h : (alookup l k).isSome) :
    (l.filter (fun p => decide (p.1 = k))).length = 1 := by
  induction l with
  | nil => simp [alookup] at h
  | cons q l ih =>
    obtain ⟨k0, v0⟩ := q
    rw [List.map_cons, List.nodup_cons] at hnd
    rw [alookup_cons] at h
    by_cases h0 : k0 = k
    · have hnil : l.filter (fun p => decide (p.1 = k)) = [] := by
        rw [List.filter_eq_nil_iff]
        intro p hp
        simp only [decide_eq_true_eq]
        intro he
        apply hnd.1
        rw [h0, ← he]
        exact List.mem_map.mpr ⟨p, hp, rfl⟩
      simp [List.filter_cons, h0, hnil]
    · rw [if_neg h0] at h
      simp only [List.filter_cons, h0, decide_eq_true_eq, if_neg,
        not_false_iff]
      simpa using ih hnd.2 h

theorem alookup_none_of_not_mem {κ α : Type} [DecidableEq κ]
    {l : List (κ × α)} {k : κ} (h : k ∉ l.map (fun q => q.1)) :
    alookup l k = none := by
  induction l with
  | nil => rfl
  | cons q l ih =>
    obtain ⟨k0, v0⟩ := q
    rw [List.map_cons, List.mem_cons] at h
    push_neg at h
    rw [alookup_cons, if_neg (fun he => h.1 he.symm)]
    exact ih h.2

theorem alookup_filter_none {κ α : Type} [DecidableEq κ]
    {l : List (κ × α)} {k : κ} (pred : κ × α → Bool)
    (h : alookup l k = none) : alookup (l.filter pred) k = none := by
  induction l with
  | nil => rfl
  | cons q l ih =>
    obtain ⟨k0, v0⟩ := q
    rw [alookup_cons] at h
    by_cases h0 : k0 = k
    · rw [if_pos h0] at h
      cases h
    · rw [if_neg h0] at h
      rw [List.filter_cons]
      by_cases hp : pred (k0, v0)
      · rw [if_pos hp, alookup_cons, if_neg h0]
        exact ih h
      · rw [if_neg hp]
        exact ih h

theorem alookup_filter {κ α : Type} [DecidableEq κ] {l : List (κ × α)}
    {k : κ} {v : α} (pred : κ × α → Bool)
    (hnd : (l.map (fun q => q.1)).Nodup) (h : alookup l k = some v) :
    alookup (l.filter pred) k = if pred (k, v) then some v else none := by
  induction l with
  | nil => cases h
  | cons q l ih =>
    obtain ⟨k0, v0⟩ := q
    rw [List.map_cons, List.nodup_cons] at hnd
    rw [alookup_cons] at h
    by_cases h0 : k0 = k
    · rw [if_pos h0] at h
      injection h with hv
      subst h0
      subst hv
      have hnone : alookup l k0 = none :=
        alookup_none_of_not_mem hnd.1
      rw [List.filter_cons]
      by_cases hp : pred (k0, v0)
      · rw [if_pos hp, alookup_cons, if_pos rfl, if_pos hp]
      · rw [if_neg hp, if_neg hp]
        exact alookup_filter_none pred hnone
    · rw [if_neg h0] at h
      rw [List.filter_cons]
      by_cases hp : pred (k0, v0)
      · rw [if_pos hp, alookup_cons, if_neg h0]
        exact ih hnd.2 h
      · rw [if_neg hp]
        exact ih hnd.2 h

theorem alookup_foldl_aset_ne {κ α β : Type} [DecidableEq κ]
    (f : β → κ) (v : β → α) :
    ∀ (l : List β) (init : List (κ × α)) (k : κ), (∀ b ∈ l, f b ≠ k) →
    alookup (l.foldl (fun acc b => aset acc (f b) (v b)) init) k =
      alookup init k := by
  intro l
  induction l with
  | nil =>
    intro init k _
    rfl
  | cons b l ih =>
    intro init k hne
    rw [List.foldl_cons]
    rw [ih (aset init (f b) (v b)) k
      (fun b' hb' => hne b' (List.mem_cons_of_mem _ hb'))]
    exact alookup_aset_ne init (f b) k (v b)
      (fun he => hne b (List.mem_cons_self _ _) he.symm)

theorem alookup_foldl_aset_self {κ α β : Type} [DecidableEq κ]
    (f : β → κ) (v : β → α) :
    ∀ (l : List β) (init : List (κ × α)) (b0 : β), b0 ∈ l →
    (l.map f).Nodup →
    alookup (l.foldl (fun acc b => aset acc (f b) (v b)) init) (f b0) =
      some (v b0) := by
  intro l
  induction l with
  | nil =>
    intro init b0 hb0 _
    cases hb0
  | cons b l ih =>
    intro init b0 hb0 hnd
    rw [List.map_cons, List.nodup_cons] at hnd
    rw [List.foldl_cons]
    rcases List.mem_cons.mp hb0 with rfl | hb0'
    · rw [alookup_foldl_aset_ne f v l (aset init (f b0) (v b0)) (f b0)
        (fun b' hb' he => hnd.1 (he ▸ List.mem_map.mpr ⟨b', hb', rfl⟩))]
      exact alookup_aset_self init (f b0) (v b0)
    · exact ih _ b0 hb0' hnd.2

theorem foldl_games_aset (f : SGame → GameDoc) :
    ∀ (l : List SGame) (st : Store),
    l.foldl (fun st g => { st with games := aset st.games g.id (f g) }) st =
      { st with
        games := l.foldl (fun acc g => aset acc g.id (f g)) st.games } := by
  intro l
  induction l with
  | nil =>
    intro st
    rfl
  | cons g l ih =>
    intro st
    rw [List.foldl_cons, List.foldl_cons, ih]

theorem keys_aupd {κ α : Type} [DecidableEq κ] (l : List (κ × α)) (k : κ)
    (f : α → α) : (aupd l k f).map (fun p => p.1) = l.map (fun p => p.1) := by
  induction l with
  | nil => rfl
  | cons q l ih =>
    obtain ⟨k0, v0⟩ := q
    rw [aupd_cons]
    by_cases h : k0 = k <;> simp [h, ih]

theorem length_aupd {κ α : Type} [DecidableEq κ] (l : List (κ × α)) (k : κ)
    (f : α → α) : (aupd l k f).length = l.length := by
  unfold aupd
  rw [List.length_map]

theorem mem_aupd_of_mem {κ α : Type} [DecidableEq κ] {l : List (κ × α)}
    {p : κ × α} {k : κ} (f : α → α) (h : p ∈ l) (hne : p.1 ≠ k) :
    p ∈ aupd l k f := by
  unfold aupd
  have : (if p.1 = k then (p.1, f p.2) else p) = p := if_neg hne
  rw [← this]
  exact List.mem_map.mpr ⟨p, h, rfl⟩

theorem mem_aupd_self {κ α : Type} [DecidableEq κ] {l : List (κ × α)}
    {k : κ} {v : α} (f : α → α) (h : (k, v) ∈ l) :
    (k, f v) ∈ aupd l k f := by
  unfold aupd
  have : (if ((k, v) : κ × α).1 = k then (k, f v) else (k, v)) = (k, f v) :=
    if_pos rfl
  rw [← this]
  exact List.mem_map.mpr ⟨(k, v), h, rfl⟩

theorem mem_aupd_elim {κ α : Type} [DecidableEq κ] {l : List (κ × α)}
    {p : κ × α} {k : κ} {f : α → α} (h : p ∈ aupd l k f) :
    (p ∈ l ∧ p.1 ≠ k) ∨ (∃ v, (k, v) ∈ l ∧ p = (k, f v)) := by
  unfold aupd at h
  rcases List.mem_map.mp h with ⟨q, hq, he⟩
  by_cases h0 : q.1 = k
  · right
    refine ⟨q.2, ?_, ?_⟩
    · rw [← h0]
      exact hq
    · rw [← he, if_pos h0, h0]
  · left
    rw [← he, if_neg h0]
    exact ⟨hq, h0⟩

theorem mem_adel_elim {κ α : Type} [DecidableEq κ] {l : List (κ × α)}
    {p : κ × α} {k : κ} (h : p ∈ adel l k) : p ∈ l ∧ p.1 ≠ k := by
  unfold adel at h
  have := List.mem_filter.mp h
  exact ⟨this.1, by simpa using this.2⟩

theorem mem_adel_of_mem {κ α : Type} [DecidableEq κ] {l : List (κ × α)}
    {p : κ × α} {k : κ} (h : p ∈ l) (hne : p.1 ≠ k) : p ∈ adel l k := by
  unfold adel
  exact List.mem_filter.mpr ⟨h, by simpa using hne⟩

theorem length_adel_isSome {κ α : Type} [DecidableEq κ]
    {l : List (κ × α)} {k : κ} (hnd : (l.map (fun p => p.1)).Nodup)
    (h : (alookup l k).isSome) : l.length = (adel l k).length + 1 := by
  induction l with
  | nil => simp [alookup] at h
  | cons q l ih =>
    obtain ⟨k0, v0⟩ := q
    rw [List.map_cons, List.nodup_cons] at hnd
    rw [alookup_cons] at h
    by_cases h0 : k0 = k
    · rw [adel_cons, if_pos h0]
      have : adel l k = l := by
        refine adel_eq_of_alookup_none (alookup_none_of_not_mem ?_)
        rw [← h0]
        exact hnd.1
      rw [this, List.length_cons]
    · rw [if_neg h0] at h
      rw [adel_cons, if_neg h0, List.length_cons, List.length_cons,
        ih hnd.2 h]

theorem nodup_keys_adel {κ α : Type} [DecidableEq κ] {l : List (κ × α)}
    (k : κ) (hnd : (l.map (fun p => p.1)).Nodup) :
    ((adel l k).map (fun p => p.1)).Nodup := by
  unfold adel
  exact (List.filter_sublist l).map (fun p => p.1) |>.nodup hnd

theorem not_mem_keys_adel {κ α : Type} [DecidableEq κ] (l : List (κ × α))
    (k : κ) : k ∉ (adel l k).map (fun p => p.1) := by
  intro h
  rcases List.mem_map.mp h with ⟨p, hp, he⟩
  exact (mem_adel_elim hp).2 he

theorem nodup_keys_aset {κ α : Type} [DecidableEq κ] {l : List (κ × α)}
    (k : κ) (v : α) (hnd : (l.map (fun p => p.1)).Nodup) :
    ((aset l k v).map (fun p => p.1)).Nodup := by
  unfold aset
  rw [List.map_append]
  rw [List.nodup_append]
  refine ⟨nodup_keys_adel k hnd, List.nodup_singleton _, ?_⟩
  intro x hx
  simp only [List.map_cons, List.map_nil, List.mem_singleton]
  intro he
  rw [he] at hx
  exact not_mem_keys_adel l k hx

theorem mem_aset_elim {κ α : Type} [DecidableEq κ] {l : List (κ × α)}
    {p : κ × α} {k : κ} {v : α} (h : p ∈ aset l k v) :
    (p ∈ l ∧ p.1 ≠ k) ∨ p = (k, v) := by
  unfold aset at h
  rcases List.mem_append.mp h with h1 | h1
  · exact Or.inl (mem_adel_elim h1)
  · exact Or.inr (List.mem_singleton.mp h1)

theorem eq_of_same_key {κ α : Type} [DecidableEq κ] {l : List (κ × α)}
    {p q : κ × α} (hp : p ∈ l) (hq : q ∈ l) (hk : p.1 = q.1)
    (hnd : (l.map (fun r => r.1)).Nodup) : p = q := by
  have h1 := alookup_eq_of_mem_nodup hp hnd
  have h2 := alookup_eq_of_mem_nodup hq hnd
  rw [hk] at h1
  rw [h1] at h2
  injection h2 with h3
  obtain ⟨p1, p2⟩ := p
  obtain ⟨q1, q2⟩ := q
  simp only at hk h3
  rw [hk, h3]

theorem singleton_of_all_same_key {κ α : Type} [DecidableEq κ]
    {l : List (κ × α)} {k : κ} (hne : l ≠ [])
    (hnd : (l.map (fun p => p.1)).Nodup) (hall : ∀ p ∈ l, p.1 = k) :
    ∃ v, l = [(k, v)] := by
  cases l with
  | nil => exact absurd rfl hne
  | cons q l2 =>
    rw [List.map_cons, List.nodup_cons] at hnd
    have hq := hall q (List.mem_cons_self _ _)
    have hl2 : l2 = [] := by
      cases he2 : l2 with
      | nil => rfl
      | cons r l3 =>
        exfalso
        apply hnd.1
        have hr := hall r (by
          rw [he2]
          exact List.mem_cons_of_mem _ (List.mem_cons_self _ _))
        rw [hq, ← hr]
        refine List.mem_map.mpr ⟨r, ?_, rfl⟩
        rw [he2]
        exact List.mem_cons_self _ _
    subst hl2
    refine ⟨q.2, ?_⟩
    obtain ⟨q1, q2⟩ := q
    simp only at hq
    rw [hq]

theorem filter_adel {κ α : Type} [DecidableEq κ] (l : List (κ × α)) (k : κ)
    (pred : κ × α → Bool) :
    (adel l k).filter pred = adel (l.filter pred) k := by
  induction l with
  | nil => rfl
  | cons q l ih =>
    rw [adel_cons]
    by_cases h0 : q.1 = k
    · rw [if_pos h0, List.filter_cons]
      by_cases hp : pred q
      · rw [if_pos hp, adel_cons, if_pos h0, ih]
      · rw [if_neg hp, ih]
    · rw [if_neg h0, List.filter_cons, List.filter_cons]
      by_cases hp : pred q
      · rw [if_pos hp, if_pos hp, adel_cons, if_neg h0, ih]
      · rw [if_neg hp, if_neg hp, ih]

theorem filter_aupd {κ α : Type} [DecidableEq κ] (l : List (κ × α)) (k : κ)
    (f : α → α) (pred : κ × α → Bool)
    (hf : ∀ k0 v, pred (k0, f v) = pred (k0, v)) :
    (aupd l k f).filter pred = aupd (l.filter pred) k f := by
  induction l with
  | nil => rfl
  | cons q l ih =>
    obtain ⟨k0, v0⟩ := q
    rw [aupd_cons]
    by_cases h0 : k0 = k
    · rw [if_pos h0, List.filter_cons, List.filter_cons, hf k0 v0]
      by_cases hp : pred (k0, v0)
      · rw [if_pos hp, if_pos hp, aupd_cons, if_pos h0, ih]
      · rw [if_neg hp, if_neg hp, ih]
    · rw [if_neg h0, List.filter_cons, List.filter_cons]
      by_cases hp : pred (k0, v0)
      · rw [if_pos hp, if_pos hp, aupd_cons, if_neg h0, ih]
      · rw [if_neg hp, if_neg hp, ih]

theorem filter_aset {κ α : Type} [DecidableEq κ] (l : List (κ × α)) (k : κ)
    (v : α) (pred : κ × α → Bool) :
    (aset l k v).filter pred =
      (if pred (k, v) then aset (l.filter pred) k v
       else adel (l.filter pred) k) := by
  unfold aset
  rw [List.filter_append, filter_adel, List.filter_cons]
  by_cases hp : pred (k, v)
  · rw [if_pos hp, if_pos hp]
    rfl
  · rw [if_neg hp, if_neg hp, List.filter_nil, List.append_nil]

theorem membersOf_aupd {s s2 : Store} {gid : String} {k : String × String}
    {f : MemberDoc → MemberDoc} (h : s2.members = aupd s.members k f)
    (hf : ∀ v, (f v).group_id = v.group_id) :
    membersOf s2 gid = aupd (membersOf s gid) k f := by
  unfold membersOf
  rw [h]
  exact filter_aupd s.members k f _ (fun k0 v => by simp [hf v])

theorem membersOf_adel {s s2 : Store} {gid : String} {k : String × String}
    (h : s2.members = adel s.members k) :
    membersOf s2 gid = adel (membersOf s gid) k := by
  unfold membersOf
  rw [h]
  exact filter_adel s.members k _

theorem membersOf_aset_same {s s2 : Store} {gid : String}
    {k : String × String} {v : MemberDoc} (h : s2.members = aset s.members k v)
    (hv : v.group_id = gid) :
    membersOf s2 gid = aset (membersOf s gid) k v := by
  unfold membersOf
  rw [h, filter_aset, if_pos (by simp [hv])]

theorem membersOf_aset_other {s s2 : Store} {gid : String}
    {k : String × String} {v : MemberDoc} (h : s2.members = aset s.members k v)
    (hv : v.group_id ≠ gid) :
    membersOf s2 gid = adel (membersOf s gid) k := by
  unfold membersOf
  rw [h, filter_aset, if_neg (by simp [hv])]

theorem membersOf_eq_members {s s2 : Store} {gid : String}
    (h : s2.members = s.members) : membersOf s2 gid = membersOf s gid := by
  unfold membersOf
  rw [h]

theorem nodup_keys_membersOf (s : Store) (gid : String)
    (hnd : (s.members.map (fun p => p.1)).Nodup) :
    ((membersOf s gid).map (fun p => p.1)).Nodup :=
  ((List.filter_sublist _).map _).nodup hnd

theorem alookup_membersOf (s : Store) (gid : String) (k : String × String)
    {v : MemberDoc} (hnd : (s.members.map (fun p => p.1)).Nodup)
    (h : alookup s.members k = some v) :
    alookup (membersOf s gid) k =
      if v.group_id = gid then some v else none := by
  unfold membersOf
  rw [alookup_filter _ hnd h]
  by_cases hg : v.group_id = gid <;> simp [hg]

theorem alookup_membersOf_none (s : Store) (gid : String)
    (k : String × String) (h : alookup s.members k = none) :
    alookup (membersOf s gid) k = none := by
  unfold membersOf
  exact alookup_filter_none _ h

/-! ## Lemmas about the target-day list and the final sort -/

theorem sinsert_perm {α : Type} (le : α → α → Bool) (x : α) :
    ∀ l : List α, (sinsert le x l).Perm (x :: l) := by
  intro l
  induction l with
  | nil => exact List.Perm.refl _
  | cons y ys ih =>
    unfold sinsert
    split_ifs with h
    · exact (ih.cons y).trans (List.Perm.swap x y ys)
    · exact List.Perm.refl _

theorem jsSortBy_perm {α : Type} (le : α → α → Bool) (l : List α) :
    (jsSortBy le l).Perm l := by
  suffices h : ∀ (l acc : List α),
      (l.foldl (fun acc x => sinsert le x acc) acc).Perm (acc ++ l) by
    simpa [jsSortBy] using h l []
  intro l
  induction l with
  | nil =>
    intro acc
    simp
  | cons x xs ih =>
    intro acc
    simp only [List.foldl_cons]
    refine (ih (sinsert le x acc)).trans ?_
    refine (((sinsert_perm le x acc).append_right xs).trans ?_)
    exact List.perm_middle.symm

theorem length_jsSortBy {α : Type} (le : α → α → Bool) (l : List α) :
    (jsSortBy le l).length = l.length :=
  (jsSortBy_perm le l).length_eq

theorem pairwise_sinsert {α : Type} (le : α → α → Bool)
    (htrans : ∀ a b c, le a b = true → le b c = true → le a c = true)
    (htotal : ∀ a b, (le a b || le b a) = true) (x : α) :
    ∀ l : List α, l.Pairwise (fun a b => le a b = true) →
    (sinsert le x l).Pairwise (fun a b => le a b = true) := by
  intro l
  induction l with
  | nil =>
    intro _
    simp [sinsert]
  | cons y ys ih =>
    intro hp
    rcases List.pairwise_cons.mp hp with ⟨hy, hys⟩
    unfold sinsert
    split_ifs with h
    · refine List.pairwise_cons.mpr ⟨?_, ih hys⟩
      intro z hz
      rcases List.mem_cons.mp ((sinsert_perm le x ys).mem_iff.mp hz) with
        rfl | hz2
      · exact h
      · exact hy z hz2
    · have hxy : le x y = true := by
        rcases Bool.or_eq_true_iff.mp (htotal y x) with h1 | h1
        · exact absurd h1 h
        · exact h1
      refine List.pairwise_cons.mpr ⟨?_, hp⟩
      intro z hz
      rcases List.mem_cons.mp hz with rfl | hz2
      · exact hxy
      · exact htrans x y z hxy (hy z hz2)

theorem pairwise_jsSortBy {α : Type} (le : α → α → Bool)
    (htrans : ∀ a b c, le a b = true → le b c = true → le a c = true)
    (htotal : ∀ a b, (le a b || le b a) = true) (l : List α) :
    (jsSortBy le l).Pairwise (fun a b => le a b = true) := by
  suffices h : ∀ (l acc : List α),
      acc.Pairwise (fun a b => le a b = true) →
      (l.foldl (fun acc x => sinsert le x acc) acc).Pairwise
        (fun a b => le a b = true) by
    exact h l [] (List.Pairwise.nil)
  intro l
  induction l with
  | nil =>
    intro acc hacc
    exact hacc
  | cons x xs ih =>
    intro acc hacc
    simp only [List.foldl_cons]
    exact ih _ (pairwise_sinsert le htrans htotal x acc hacc)

theorem dayMapLookup_getD_bounds (name : String) :
    0 ≤ (dayMapLookup name).getD 4 ∧ (dayMapLookup name).getD 4 < 7 := by
  cases h : DAY_MAP.find? (fun p => p.1 == name) with
  | none => simp [dayMapLookup, h]
  | some p =>
    have hmem := List.mem_of_find?_eq_some h
    simp only [dayMapLookup, h, Option.map_some', Option.getD_some]
    fin_cases hmem <;> norm_num

theorem mem_targetDaysOf {g : GroupInfo} {td : Int} (h : td ∈ targetDaysOf g) :
    ∃ name ∈ effGameDays g, td = (dayMapLookup name).getD 4 := by
  unfold targetDaysOf at h
  rcases List.mem_map.mp ((jsSortBy_perm _ _).mem_iff.mp h) with
    ⟨name, hn, he⟩
  exact ⟨name, hn, he.symm⟩

theorem targetDaysOf_bounds (g : GroupInfo) :
    ∀ td ∈ targetDaysOf g, 0 ≤ td ∧ td < 7 := by
  intro td h
  rcases mem_targetDaysOf h with ⟨name, _, he⟩
  rw [he]
  exact dayMapLookup_getD_bounds name

theorem targetDaysOf_nodup {g : GroupInfo}
    (h : ((effGameDays g).map (fun n => (dayMapLookup n).getD 4)).Nodup) :
    (targetDaysOf g).Nodup :=
  (jsSortBy_perm _ _).symm.nodup h

theorem targetDaysOf_length (g : GroupInfo) :
    (targetDaysOf g).length = (effGameDays g).length := by
  unfold targetDaysOf
  rw [length_jsSortBy, List.length_map]

theorem generateUpcomingGames_eq (grp : GroupInfo) (wc : Nat) (today : Int) :
    generateUpcomingGames grp wc today =
      (jsSortBy (fun a b => decide (a.date ≤ b.date))
        (genLoop grp today (jsStrOr grp.frequency "weekly")
          (targetDaysOf grp) wc (4 * wc + 8) ⟨[], today, 0, -1⟩)).take
        (wc * (targetDaysOf grp).length) := rfl

theorem sgameLe_trans : ∀ a b c : SGame,
    decide (a.date ≤ b.date) = true → decide (b.date ≤ c.date) = true →
    decide (a.date ≤ c.date) = true := by
  intro a b c h1 h2
  simp only [decide_eq_true_eq] at h1 h2 ⊢
  omega

theorem sgameLe_total : ∀ a b : SGame,
    (decide (a.date ≤ b.date) || decide (b.date ≤ a.date)) = true := by
  intro a b
  rcases le_total a.date b.date with h | h <;> simp [h]

/-- The occurrences `generateUpcomingGames` returns, over any frequency:
every returned game has a date on or after today, carries the id
`(groupInfo.id, date)`, and falls on a weekday from the target-day list;
the returned dates are pairwise distinct and strictly ascending; and at most
`weeksCount * targetDays.length` games are returned. -/
theorem generateUpcomingGames_shape (gi : GroupInfo) (wc : Nat)
    (today : Int) :
    List.Pairwise (fun a b : SGame => a.date < b.date)
      (generateUpcomingGames gi wc today) ∧
    (∀ g ∈ generateUpcomingGames gi wc today, today ≤ g.date ∧
      g.id = (gi.id, g.date) ∧
      ∃ name ∈ effGameDays gi, jsGetDay g.date = (dayMapLookup name).getD 4) ∧
    (generateUpcomingGames gi wc today).length ≤
      wc * (effGameDays gi).length := by
  have hbnd := targetDaysOf_bounds gi
  set raw := genLoop gi today (jsStrOr gi.frequency "weekly")
    (targetDaysOf gi) wc (4 * wc + 8) ⟨[], today, 0, -1⟩ with hraw
  have hraw_mem : ∀ g ∈ raw, today ≤ g.date ∧ g.id = (gi.id, g.date) ∧
      ∃ td ∈ targetDaysOf gi, jsGetDay g.date = td := by
    intro g hg
    rcases mem_genLoop hbnd _ _ hg with hnil | ⟨h1, h2, _, td, htd, h3⟩
    · exact absurd hnil (List.not_mem_nil g)
    · exact ⟨h1, h2, td, htd, h3⟩
  have hraw_ids : (raw.map (fun g => g.id)).Nodup :=
    nodup_ids_genLoop _ _ (by simp)
  have hperm := jsSortBy_perm (fun a b : SGame => decide (a.date ≤ b.date)) raw
  set sorted := jsSortBy (fun a b : SGame => decide (a.date ≤ b.date)) raw
    with hsorted
  have hsorted_mem : ∀ g ∈ sorted, today ≤ g.date ∧ g.id = (gi.id, g.date) ∧
      ∃ td ∈ targetDaysOf gi, jsGetDay g.date = td := by
    intro g hg
    exact hraw_mem g (hperm.subset hg)
  have hsorted_ids : (sorted.map (fun g => g.id)).Nodup :=
    (hperm.symm.map (fun g => g.id)).nodup hraw_ids
  have hsorted_le := pairwise_jsSortBy (fun a b : SGame =>
    decide (a.date ≤ b.date)) sgameLe_trans sgameLe_total raw
  have hsorted_ne : sorted.Pairwise (fun a b => a.date ≠ b.date) := by
    have h1 := List.pairwise_map.mp hsorted_ids
    refine List.Pairwise.imp_of_mem ?_ h1
    intro a b ha hb hne he
    apply hne
    rw [(hsorted_mem a ha).2.1, (hsorted_mem b hb).2.1, he]
  have hsorted_lt : sorted.Pairwise (fun a b => a.date < b.date) := by
    have hcomb := hsorted_le.and hsorted_ne
    refine hcomb.imp ?_
    intro a b hab
    have h1 := hab.1
    simp only [decide_eq_true_eq] at h1
    exact lt_of_le_of_ne h1 hab.2
  rw [generateUpcomingGames_eq, ← hraw, ← hsorted]
  refine ⟨hsorted_lt.sublist (List.take_sublist _ _), ?_, ?_⟩
  · intro g hg
    have hmem := hsorted_mem g ((List.take_sublist _ _).mem hg)
    rcases hmem with ⟨h1, h2, td, htd, h3⟩
    rcases mem_targetDaysOf htd with ⟨name, hn, he⟩
    exact ⟨h1, h2, name, hn, by rw [h3, he]⟩
  · calc (sorted.take (wc * (targetDaysOf gi).length)).length
        ≤ wc * (targetDaysOf gi).length := List.length_take_le _ _
    _ = wc * (effGameDays gi).length := by rw [targetDaysOf_length]

/-- The weekly generator fills every counted week: with distinct valid
weekdays the loop output, once truncated, has exactly
`weeksCount * weekdays` entries. -/
theorem generateUpcomingGames_weekly_length (gi : GroupInfo) (wc : Nat)
    (today : Int)
    (hfreq : jsStrOr gi.frequency "weekly" = "weekly")
    (hnd : ((effGameDays gi).map (fun n => (dayMapLookup n).getD 4)).Nodup) :
    (generateUpcomingGames gi wc today).length =
      wc * (effGameDays gi).length := by
  have hbnd := targetDaysOf_bounds gi
  have htnd := targetDaysOf_nodup hnd
  have hlow := @genLoop_weekly_length gi today (targetDaysOf gi) wc hbnd htnd
    (4 * wc + 8) ⟨[], today, 0, -1⟩ (le_refl today) (by simp) (by simp)
  simp only [List.length_nil, Nat.zero_add, Nat.sub_zero] at hlow
  have hmin : min (4 * wc + 8) wc = wc := by omega
  rw [hmin] at hlow
  have hlensort : (jsSortBy (fun a b : SGame => decide (a.date ≤ b.date))
      (genLoop gi today "weekly" (targetDaysOf gi) wc (4 * wc + 8)
        ⟨[], today, 0, -1⟩)).length =
      (genLoop gi today "weekly" (targetDaysOf gi) wc (4 * wc + 8)
        ⟨[], today, 0, -1⟩).length := length_jsSortBy _ _
  rw [generateUpcomingGames_eq, hfreq, List.length_take, hlensort,
    targetDaysOf_length]
  rw [targetDaysOf_length gi] at hlow
  exact Nat.min_eq_left hlow

/-- C2 (amended): the spec promises exactly `horizonCount` occurrences, but
the source returns `weeksCount * targetDays.length` games (groupUtils.js
line 180), one per requested weekday per counted week.  Amended claim: for a
weekly-frequency spec whose weekday names are distinct entries of `DAY_MAP`,
the generator returns exactly `horizonCount × |weekdays|` occurrences, with
pairwise-distinct strictly ascending dates, each on or after the injected
today, each falling on a weekday of the requested set; for the other
frequencies the same holds except that the length is only bounded by
`horizonCount × |weekdays|`. -/
theorem generateUpcomingGames_spec (gi : GroupInfo) (wc : Nat) (today : Int)
    (l : List String) (hdays : gi.game_days = some l)
    (hvalid : ∀ name ∈ l, (dayMapLookup name).isSome)
    (hnd : (l.map (fun n => (dayMapLookup n).getD 4)).Nodup)
    (hwc : 0 < wc) :
    List.Pairwise (fun a b : SGame => a.date < b.date)
      (generateUpcomingGames gi wc today) ∧
    (∀ g ∈ generateUpcomingGames gi wc today, today ≤ g.date) ∧
    (∀ g ∈ generateUpcomingGames gi wc today,
      ∃ name ∈ l, jsGetDay g.date = (dayMapLookup name).getD 4) ∧
    (generateUpcomingGames gi wc today).length ≤ wc * l.length ∧
    (jsStrOr gi.frequency "weekly" = "weekly" →
      (generateUpcomingGames gi wc today).length = wc * l.length) := by
  have heff : effGameDays gi = l := by
    unfold effGameDays
    rw [hdays]
  obtain ⟨h1, h2, h3⟩ := generateUpcomingGames_shape gi wc today
  refine ⟨h1, fun g hg => (h2 g hg).1, ?_, ?_, ?_⟩
  · intro g hg
    rcases (h2 g hg).2.2 with ⟨name, hn, he⟩
    exact ⟨name, heff ▸ hn, he⟩
  · rw [← heff]
    exact h3
  · intro hfreq
    rw [← heff]
    exact generateUpcomingGames_weekly_length gi wc today hfreq (heff ▸ hnd)

/-- C2 (counterexample): with the weekly two-weekday schedule and horizon 1,
the generator returns 2 occurrences, not the 1 the claim promises (it
returns one game per weekday per week). -/
theorem generateUpcomingGames_horizon_counterexample :
    ¬ ((generateUpcomingGames giWeeklyTwoDays 1 19733).length = 1) := by
  decide

/-- C9 (counterexample): on a spec whose weekday list is empty, the source
raises nothing — there is no `InvalidScheduleError` anywhere in the
repository — and returns the empty occurrence list normally. -/
theorem generateUpcomingGames_empty_counterexample :
    generateUpcomingGames giEmptyDays 8 19733 = [] := by
  decide

/-- C9 (amended): a schedule spec with an empty weekday set does not fail:
`generateUpcomingGames` returns the empty list (an empty array is truthy in
JavaScript, so the `game_days` fallback is not taken, the per-week loop has
no target days, and the final `slice(0, weeksCount * 0)` is empty). -/
theorem generateUpcomingGames_empty_weekdays (gi : GroupInfo) (wc : Nat)
    (today : Int) (h : gi.game_days = some []) :
    generateUpcomingGames gi wc today = [] := by
  have htds : targetDaysOf gi = [] := by
    unfold targetDaysOf effGameDays
    rw [h]
    rfl
  rw [generateUpcomingGames_eq, htds]
  simp

/-- C10: any `game_days` entry that is not one of the seven weekday names is
looked up as `undefined` and defaulted to 4 (Thursday) by `?? 4`; when
`game_days` is absent the effective schedule is the single day
`day_of_week || 'Thursday'`; and every generated occurrence falls on the
weekday value of some effective day entry — so unknown entries yield
Thursday occurrences.  No error is raised in any of these cases (the
embedding is total exactly because the source has no failure path here). -/
theorem generateUpcomingGames_day_defaults :
    (∀ name : String, name ∉ DAY_MAP.map (fun p => p.1) →
      (dayMapLookup name).getD 4 = 4) ∧
    (∀ gi : GroupInfo, gi.game_days = none →
      effGameDays gi = [jsStrOr gi.day_of_week "Thursday"]) ∧
    (∀ (gi : GroupInfo) (wc : Nat) (today : Int) (g : SGame),
      g ∈ generateUpcomingGames gi wc today →
      ∃ name ∈ effGameDays gi,
        jsGetDay g.date = (dayMapLookup name).getD 4) := by
  refine ⟨?_, ?_, ?_⟩
  · intro name hname
    have hnone : DAY_MAP.find? (fun p => p.1 == name) = none := by
      rw [List.find?_eq_none]
      intro p hp hbeq
      apply hname
      rw [List.mem_map]
      exact ⟨p, hp, eq_of_beq hbeq⟩
    simp [dayMapLookup, hnone]
  · intro gi h
    unfold effGameDays
    rw [h]
  · intro gi wc today g hg
    exact ((generateUpcomingGames_shape gi wc today).2.1 g hg).2.2

/-- C2 (witness): the amended generator theorem applied to the weekly
Thursday schedule with horizon 2 from Thursday 2024-01-11. -/
theorem generateUpcomingGames_spec_witness :
    List.Pairwise (fun a b : SGame => a.date < b.date)
      (generateUpcomingGames giWeeklyThu 2 19733) ∧
    (∀ g ∈ generateUpcomingGames giWeeklyThu 2 19733, (19733 : Int) ≤ g.date) ∧
    (∀ g ∈ generateUpcomingGames giWeeklyThu 2 19733,
      ∃ name ∈ ["Thursday"], jsGetDay g.date = (dayMapLookup name).getD 4) ∧
    (generateUpcomingGames giWeeklyThu 2 19733).length ≤
      2 * (["Thursday"] : List String).length ∧
    (jsStrOr giWeeklyThu.frequency "weekly" = "weekly" →
      (generateUpcomingGames giWeeklyThu 2 19733).length =
        2 * (["Thursday"] : List String).length) :=
  generateUpcomingGames_spec giWeeklyThu 2 19733 ["Thursday"] (by decide)
    (by decide) (by decide) (by decide)

/-- C9 (witness): the amended empty-weekday theorem applied to the concrete
empty-day schedule. -/
theorem generateUpcomingGames_empty_weekdays_witness :
    generateUpcomingGames giEmptyDays 3 19733 = [] :=
  generateUpcomingGames_empty_weekdays giEmptyDays 3 19733 (by decide)

/-- C10 (witness): the day-default theorem applied at an unknown day name,
at a group info lacking `game_days`, and at a concrete generated game. -/
theorem generateUpcomingGames_day_defaults_witness :
    (dayMapLookup "Funday").getD 4 = 4 ∧
    effGameDays giNoDays = [jsStrOr giNoDays.day_of_week "Thursday"] ∧
    (∃ name ∈ effGameDays giWeeklyThu,
      jsGetDay gameThu0.date = (dayMapLookup name).getD 4) :=
  ⟨generateUpcomingGames_day_defaults.1 "Funday" (by decide),
   generateUpcomingGames_day_defaults.2.1 giNoDays (by decide),
   generateUpcomingGames_day_defaults.2.2 giWeeklyThu 1 19733 gameThu0
     (by decide)⟩

/-- C7 (code evaluation at the failing input): the source comments intend
monthly schedules to generate only one occurrence event per month, but with
a monthly Thursday-and-Friday schedule starting Monday 2024-01-08 the
generator emits both 2024-01-11 (day 19733) and 2024-01-12 (day 19734) —
two distinct occurrences inside the single calendar month January 2024 (and
nothing more across the whole 8-week horizon, because every later iteration
re-enters the skip-to-next-month branch before generating). -/
theorem generateUpcomingGames_monthly_two_in_month :
    (generateUpcomingGames giMonthlyThuFri 8 19730).map (fun g => g.date) =
        [19733, 19734] ∧
      monthOf 19733 = (2024, 1) ∧ monthOf 19734 = (2024, 1) := by
  decide

/-! ## Membership-operation theorems -/

/-- C3: joining a group the caller already belongs to returns success
(with the `alreadyMember` marker) and performs no mutation: the store is
untouched, exactly one membership record exists for the pair afterwards,
and `member_count` is not incremented a second time. -/
theorem joinGroup_idempotent (s : Store) (uid gid : String) (now : Int)
    (hg : (alookup s.groups gid).isSome)
    (hm : (alookup s.members (uid, gid)).isSome)
    (hnd : (s.members.map (fun p => p.1)).Nodup) :
    (joinGroup s uid gid now).1 =
      { success := true, error := none, groupId := some gid,
        alreadyMember := some true } ∧
    (joinGroup s uid gid now).2 = s ∧
    ((joinGroup s uid gid now).2.members.filter
      (fun p => decide (p.1 = (uid, gid)))).length = 1 ∧
    (alookup (joinGroup s uid gid now).2.groups gid).map
        (fun g => g.member_count) =
      (alookup s.groups gid).map (fun g => g.member_count) := by
  obtain ⟨g, hgeq⟩ := Option.isSome_iff_exists.mp hg
  have hjoin : joinGroup s uid gid now =
      ({ success := true, error := none, groupId := some gid,
         alreadyMember := some true }, s) := by
    unfold joinGroup
    rw [hgeq]
    simp only [hm, if_pos]
  rw [hjoin]
  exact ⟨rfl, rfl, filter_key_length_of_nodup hnd hm, rfl⟩

/-- C3 (witness): the idempotent-join theorem applied to the concrete
single-member store. -/
theorem joinGroup_idempotent_witness :
    (joinGroup storeSolo "alice" "g1" 50).1 =
      { success := true, error := none, groupId := some "g1",
        alreadyMember := some true } ∧
    (joinGroup storeSolo "alice" "g1" 50).2 = storeSolo ∧
    ((joinGroup storeSolo "alice" "g1" 50).2.members.filter
      (fun p => decide (p.1 = ("alice", "g1")))).length = 1 ∧
    (alookup (joinGroup storeSolo "alice" "g1" 50).2.groups "g1").map
        (fun g => g.member_count) =
      (alookup storeSolo.groups "g1").map (fun g => g.member_count) :=
  joinGroup_idempotent storeSolo "alice" "g1" 50 (by decide) (by decide)
    (by decide)

/-- C4 (counterexample): bob holds no membership in the existing group g1,
yet `leaveGroup` returns success and mutates the store: `member_count`
drops to 0 while the membership record of alice survives.  The claimed
`NotAMemberError` does not exist in the source. -/
theorem leaveGroup_nonmember_counterexample :
    (alookup storeSolo.members ("bob", "g1")) = none ∧
    (leaveGroup storeSolo "bob" "g1" 99).1.success = true ∧
    (leaveGroup storeSolo "bob" "g1" 99).2 ≠ storeSolo ∧
    (alookup (leaveGroup storeSolo "bob" "g1" 99).2.groups "g1").map
      (fun g => g.member_count) = some 0 := by
  decide

/-- C4 (amended): `leaveGroup` never returns a `NotAMemberError`.  When the
group does not exist it returns the structured `Group not found.` failure
and leaves the store unchanged; when the group exists and the caller is
neither a member nor the recorded admin, it returns success anyway, leaving
memberships and games untouched but still decrementing the group's
`member_count`. -/
theorem leaveGroup_nonmember_spec (s : Store) (uid gid : String) (now : Int)
    (hm : alookup s.members (uid, gid) = none) :
    ((alookup s.groups gid = none) →
      (leaveGroup s uid gid now).1 =
        { success := false, error := some "Group not found.",
          wasAdmin := none, newAdminName := none } ∧
      (leaveGroup s uid gid now).2 = s) ∧
    (∀ g : GroupDoc, alookup s.groups gid = some g → g.admin_id ≠ uid →
      (leaveGroup s uid gid now).1 =
        { success := true, error := none, wasAdmin := some false,
          newAdminName := none } ∧
      (leaveGroup s uid gid now).2.members = s.members ∧
      (leaveGroup s uid gid now).2.games = s.games ∧
      (alookup (leaveGroup s uid gid now).2.groups gid) =
        some { g with member_count := g.member_count - 1,
                      updated_at := now } ∧
      (∀ gid2, gid2 ≠ gid →
        alookup (leaveGroup s uid gid now).2.groups gid2 =
          alookup s.groups gid2)) := by
  constructor
  · intro hnone
    unfold leaveGroup
    rw [hnone]
    exact ⟨rfl, rfl⟩
  · intro g hgeq hadmin
    have hstep : leaveGroup s uid gid now =
        ({ success := true, error := none, wasAdmin := some false,
           newAdminName := none },
         { s with members := adel s.members (uid, gid),
                  groups := aupd s.groups gid
                    (fun d => { d with
                      member_count := d.member_count - 1,
                      updated_at := now }) }) := by
      unfold leaveGroup
      rw [hgeq]
      simp only [if_neg hadmin]
    rw [hstep]
    refine ⟨rfl, adel_eq_of_alookup_none hm, rfl, ?_, ?_⟩
    · simp only
      rw [alookup_aupd_self, hgeq]
      rfl
    · intro gid2 hne
      simp only
      rw [alookup_aupd_ne _ _ _ _ hne]

/-- C4 (witness): the amended non-member-leave theorem applied to the
concrete store, with bob a non-member of the existing group g1. -/
theorem leaveGroup_nonmember_spec_witness :
    ((alookup storeSolo.groups "g1" = none) →
      (leaveGroup storeSolo "bob" "g1" 99).1 =
        { success := false, error := some "Group not found.",
          wasAdmin := none, newAdminName := none } ∧
      (leaveGroup storeSolo "bob" "g1" 99).2 = storeSolo) ∧
    (∀ g : GroupDoc, alookup storeSolo.groups "g1" = some g →
      g.admin_id ≠ "bob" →
      (leaveGroup storeSolo "bob" "g1" 99).1 =
        { success := true, error := none, wasAdmin := some false,
          newAdminName := none } ∧
      (leaveGroup storeSolo "bob" "g1" 99).2.members =
        storeSolo.members ∧
      (leaveGroup storeSolo "bob" "g1" 99).2.games = storeSolo.games ∧
      (alookup (leaveGroup storeSolo "bob" "g1" 99).2.groups "g1") =
        some { g with member_count := g.member_count - 1,
                      updated_at := 99 } ∧
      (∀ gid2, gid2 ≠ "g1" →
        alookup (leaveGroup storeSolo "bob" "g1" 99).2.groups gid2 =
          alookup storeSolo.groups gid2)) :=
  leaveGroup_nonmember_spec storeSolo "bob" "g1" 99 (by decide)

theorem charListLe_trans : ∀ x y z : List Char,
    charListLe x y = true → charListLe y z = true →
    charListLe x z = true := by
  intro x
  induction x with
  | nil =>
    intro y z _ _
    rfl
  | cons a as ih =>
    intro y z h1 h2
    cases y with
    | nil => cases h1
    | cons b bs =>
      cases z with
      | nil => cases h2
      | cons c cs =>
        unfold charListLe at h1 h2 ⊢
        split_ifs at h1 h2 ⊢ with g1 g2 g3 g4 g5 g6 <;>
          first
          | rfl
          | omega
          | (exact ih bs cs (by omega ▸ h1) h2)
          | skip
        all_goals
          (have hab : a.toNat = b.toNat := by omega
           have hbc : b.toNat = c.toNat := by omega
           exact ih bs cs h1 h2)

theorem charListLe_total : ∀ x y : List Char,
    (charListLe x y || charListLe y x) = true := by
  intro x
  induction x with
  | nil =>
    intro y
    rfl
  | cons a as ih =>
    intro y
    cases y with
    | nil => rfl
    | cons b bs =>
      unfold charListLe
      split_ifs with g1 g2 <;> simp_all [ih bs]

theorem charListLe_refl : ∀ x : List Char, charListLe x x = true := by
  intro x
  induction x with
  | nil => rfl
  | cons a as ih =>
    unfold charListLe
    simp [ih]

theorem strLe_refl (x : String) : strLe x x = true := charListLe_refl x.data

theorem strLe_trans : ∀ x y z : String,
    strLe x y = true → strLe y z = true → strLe x z = true := by
  intro x y z h1 h2
  exact charListLe_trans x.data y.data z.data h1 h2

theorem strLe_total : ∀ x y : String, (strLe x y || strLe y x) = true := by
  intro x y
  exact charListLe_total x.data y.data

theorem memberLe_trans : ∀ a b c : (String × String) × MemberDoc,
    memberLe a b = true → memberLe b c = true → memberLe a c = true := by
  intro a b c h1 h2
  unfold memberLe at h1 h2 ⊢
  simp only [decide_eq_true_eq] at h1 h2 ⊢
  rcases h1 with h1 | ⟨h1e, h1s⟩
  · rcases h2 with h2 | ⟨h2e, h2s⟩
    · exact Or.inl (lt_trans h1 h2)
    · exact Or.inl (h2e ▸ h1)
  · rcases h2 with h2 | ⟨h2e, h2s⟩
    · exact Or.inl (h1e ▸ h2)
    · exact Or.inr ⟨h1e.trans h2e, strLe_trans _ _ _ h1s h2s⟩

theorem memberLe_total : ∀ a b : (String × String) × MemberDoc,
    (memberLe a b || memberLe b a) = true := by
  intro a b
  unfold memberLe
  rcases lt_trichotomy a.2.joined_at b.2.joined_at with h | h | h
  · simp [h]
  · rcases Bool.or_eq_true_iff.mp
      (strLe_total (memberDocId a.1) (memberDocId b.1)) with hs | hs
    · simp [h, hs]
    · simp [h.symm, hs]
  · simp [h]

/-- C5: when the current admin leaves while at least one other member
remains, `admin_id` is reassigned to the head of the `joined_at`-ordered
member list with the caller filtered out, and that membership's `is_admin`
flag becomes true.  The chosen member is the minimum of the remaining
members in the order (earliest `joined_at`, ties broken deterministically
by the membership document id `userId_groupId` ascending — Firestore's
documented secondary sort on the queried doc id). -/
theorem leaveGroup_admin_succession (s : Store) (uid gid : String)
    (now : Int) (g : GroupDoc)
    (newAdmin : (String × String) × MemberDoc)
    (rest : List ((String × String) × MemberDoc))
    (hg : alookup s.groups gid = some g)
    (hadmin : g.admin_id = uid)
    (hmnd : (s.members.map (fun p => p.1)).Nodup)
    (hkeys : ∀ p ∈ s.members, p.1 = (p.2.user_id, p.2.group_id))
    (hothers : (membersSortedByJoin s gid).filter
        (fun p => decide (p.2.user_id ≠ uid)) = newAdmin :: rest) :
    (leaveGroup s uid gid now).1.wasAdmin = some true ∧
    (alookup (leaveGroup s uid gid now).2.groups gid).map
      (fun d => d.admin_id) = some newAdmin.2.user_id ∧
    alookup (leaveGroup s uid gid now).2.members newAdmin.1 =
      some { newAdmin.2 with is_admin := true } ∧
    newAdmin ∈ membersOf s gid ∧ newAdmin.2.user_id ≠ uid ∧
    (∀ p ∈ membersOf s gid, p.2.user_id ≠ uid →
      newAdmin.2.joined_at < p.2.joined_at ∨
      (newAdmin.2.joined_at = p.2.joined_at ∧
        strLe (memberDocId newAdmin.1) (memberDocId p.1) = true)) := by
  have hsortperm := jsSortBy_perm memberLe (membersOf s gid)
  have hnewmem_sorted : newAdmin ∈ membersSortedByJoin s gid := by
    have : newAdmin ∈ (membersSortedByJoin s gid).filter
        (fun p => decide (p.2.user_id ≠ uid)) := by
      rw [hothers]
      exact List.mem_cons_self _ _
    exact (List.mem_filter.mp this).1
  have hnewpred : newAdmin.2.user_id ≠ uid := by
    have : newAdmin ∈ (membersSortedByJoin s gid).filter
        (fun p => decide (p.2.user_id ≠ uid)) := by
      rw [hothers]
      exact List.mem_cons_self _ _
    have h2 := (List.mem_filter.mp this).2
    simpa using h2
  have hnew_membersOf : newAdmin ∈ membersOf s gid :=
    hsortperm.subset hnewmem_sorted
  have hnew_store : newAdmin ∈ s.members :=
    List.mem_of_mem_filter hnew_membersOf
  have hkey_ne : newAdmin.1 ≠ (uid, gid) := by
    intro he
    apply hnewpred
    have hk := hkeys newAdmin hnew_store
    have : (newAdmin.2.user_id, newAdmin.2.group_id) = (uid, gid) :=
      hk ▸ he
    exact congrArg Prod.fst this
  have hstep : (leaveGroup s uid gid now).1.wasAdmin = some true ∧
      (leaveGroup s uid gid now).2.groups =
        (if g.member_count > 1 then
          aupd (aupd s.groups gid
            (fun d => { d with admin_id := newAdmin.2.user_id,
                               updated_at := now })) gid
            (fun d => { d with member_count := d.member_count - 1,
                               updated_at := now })
        else aupd s.groups gid
          (fun d => { d with admin_id := newAdmin.2.user_id,
                             updated_at := now })) ∧
      (leaveGroup s uid gid now).2.members =
        adel (aupd s.members newAdmin.1
          (fun m => { m with is_admin := true })) (uid, gid) := by
    unfold leaveGroup
    rw [hg]
    simp only [if_pos hadmin, hothers]
    split_ifs with hc <;> exact ⟨trivial, rfl, rfl⟩
  refine ⟨hstep.1, ?_, ?_, hnew_membersOf, hnewpred, ?_⟩
  · rw [hstep.2.1]
    split_ifs with hc
    · rw [alookup_aupd_self, alookup_aupd_self, hg]
      rfl
    · rw [alookup_aupd_self, hg]
      rfl
  · rw [hstep.2.2]
    rw [alookup_adel_ne _ _ _ hkey_ne, alookup_aupd_self,
      alookup_eq_of_mem_nodup hnew_store hmnd]
    rfl
  · intro p hp hpuid
    have hp_sorted : p ∈ membersSortedByJoin s gid :=
      hsortperm.symm.subset hp
    have hp_filter : p ∈ (membersSortedByJoin s gid).filter
        (fun p => decide (p.2.user_id ≠ uid)) :=
      List.mem_filter.mpr ⟨hp_sorted, by simpa using hpuid⟩
    rw [hothers] at hp_filter
    rcases List.mem_cons.mp hp_filter with rfl | hp_rest
    · exact Or.inr ⟨rfl, strLe_refl _⟩
    · have hsorted_pw := pairwise_jsSortBy memberLe memberLe_trans
        memberLe_total (membersOf s gid)
      have hfilter_pw : ((membersSortedByJoin s gid).filter
          (fun p => decide (p.2.user_id ≠ uid))).Pairwise
          (fun a b => memberLe a b = true) :=
        hsorted_pw.sublist (List.filter_sublist _)
      rw [hothers] at hfilter_pw
      have hle := (List.pairwise_cons.mp hfilter_pw).1 p hp_rest
      unfold memberLe at hle
      simpa using hle

/-- C5 (witness): the succession theorem applied to the concrete
three-member store with a `joined_at` tie between bob and carol: bob wins
the tie because the doc id `bob_g1` sorts before `carol_g1`. -/
theorem leaveGroup_admin_succession_witness :
    (leaveGroup storeTrio "alice" "g1" 99).1.wasAdmin = some true ∧
    (alookup (leaveGroup storeTrio "alice" "g1" 99).2.groups "g1").map
      (fun d => d.admin_id) = some (("bob", "g1"), bobMember).2.user_id ∧
    alookup (leaveGroup storeTrio "alice" "g1" 99).2.members
        (("bob", "g1"), bobMember).1 =
      some { (("bob", "g1"), bobMember).2 with is_admin := true } ∧
    (("bob", "g1"), bobMember) ∈ membersOf storeTrio "g1" ∧
    (("bob", "g1"), bobMember).2.user_id ≠ "alice" ∧
    (∀ p ∈ membersOf storeTrio "g1", p.2.user_id ≠ "alice" →
      (("bob", "g1"), bobMember).2.joined_at < p.2.joined_at ∨
      ((("bob", "g1"), bobMember).2.joined_at = p.2.joined_at ∧
        strLe (memberDocId (("bob", "g1"), bobMember).1)
          (memberDocId p.1) = true)) :=
  leaveGroup_admin_succession storeTrio "alice" "g1" 99 g1Doc3
    (("bob", "g1"), bobMember) [(("carol", "g1"), carolMember)]
    (by decide) (by decide) (by decide) (by decide) (by decide)

/-- C6 (counterexample): the group's occurrence dated day 19733 has its
midnight instant before `now` (later the same day), so the claim says it is
left unchanged by a schedule change — but the regeneration re-emits day
19733 and `batch.set` overwrites the stored record, wiping its host. -/
theorem updateGroupSettings_past_overwrite_counterexample :
    (hostedGameToday.date ≤ 19733 * 1440 + 600) ∧
    (alookup storeHosted.games ("g1", 19733)).map (fun d => d.host_id) =
      some (some "bob") ∧
    (alookup (updateGroupSettings storeHosted "alice" "g1" updThursday
        (19733 * 1440 + 600)).2.games ("g1", 19733)).map
      (fun d => d.host_id) = some none := by
  decide

/-- C6 (amended): a schedule change by the admin deletes exactly the
group's occurrences dated strictly after `now` that the new spec does not
regenerate, and inserts the freshly generated occurrences; occurrences of
other groups, and the group's occurrences dated strictly before the
midnight of the change day, are left unchanged.  The occurrence dated on
the change day itself (midnight ≤ now) is not protected: when the new spec
regenerates that date, `batch.set` overwrites the stored record with a
fresh one (host reset), which is what refutes the original claim. -/
theorem updateGroupSettings_regen_spec (s : Store) (uid gid : String)
    (u : SettingsUpdate) (now : Int) (g : GroupDoc)
    (hg : alookup s.groups gid = some g)
    (hadmin : g.admin_id = uid)
    (hsched : u.game_days.isSome = true ∨ strTruthy u.time = true ∨
      strTruthy u.frequency = true)
    (hgnd : (s.games.map (fun p => p.1)).Nodup)
    (hkeys : ∀ p ∈ s.games, p.2.group_id = p.1.1 ∧
      p.2.date = p.1.2 * 1440) :
    (updateGroupSettings s uid gid u now).1 =
      { success := true, error := none } ∧
    (updateGroupSettings s uid gid u now).2.members = s.members ∧
    alookup (updateGroupSettings s uid gid u now).2.groups gid =
      some { applyUpdates g u with updated_at := now } ∧
    (∀ (k : String × Int) (doc : GameDoc), alookup s.games k = some doc →
      doc.date < now.fdiv 1440 * 1440 →
      alookup (updateGroupSettings s uid gid u now).2.games k = some doc) ∧
    (∀ (k : String × Int) (doc : GameDoc), alookup s.games k = some doc →
      k.1 ≠ gid →
      alookup (updateGroupSettings s uid gid u now).2.games k = some doc) ∧
    (∀ (k : String × Int) (doc : GameDoc), alookup s.games k = some doc →
      doc.group_id = gid → doc.date > now →
      (∀ game ∈ generateUpcomingGames (regenSpecOf gid g u) 8
        (now.fdiv 1440), game.id ≠ k) →
      alookup (updateGroupSettings s uid gid u now).2.games k = none) ∧
    (∀ game ∈ generateUpcomingGames (regenSpecOf gid g u) 8 (now.fdiv 1440),
      alookup (updateGroupSettings s uid gid u now).2.games game.id =
        some (storedGameDoc gid now game)) := by
  have hstep : updateGroupSettings s uid gid u now =
      ({ success := true, error := none },
       { s with
         groups := aupd s.groups gid
           (fun d => { applyUpdates d u with updated_at := now }),
         games :=
           (generateUpcomingGames (regenSpecOf gid g u) 8
             (now.fdiv 1440)).foldl
             (fun acc game =>
               aset acc game.id (storedGameDoc gid now game))
             (s.games.filter
               (fun p =>
                 decide (¬ (p.2.group_id = gid ∧ p.2.date > now)))) }) := by
    unfold updateGroupSettings
    rw [hg]
    dsimp only
    rw [if_neg (fun h => h hadmin), if_pos hsched, foldl_games_aset]
  have hshape := generateUpcomingGames_shape (regenSpecOf gid g u) 8
    (now.fdiv 1440)
  have hnew_ge : ∀ game ∈ generateUpcomingGames (regenSpecOf gid g u) 8
      (now.fdiv 1440), now.fdiv 1440 ≤ game.date ∧
      game.id = (gid, game.date) := by
    intro game hgame
    exact ⟨(hshape.2.1 game hgame).1, (hshape.2.1 game hgame).2.1⟩
  have hnew_nodup : ((generateUpcomingGames (regenSpecOf gid g u) 8
      (now.fdiv 1440)).map (fun game => game.id)).Nodup := by
    have hpw : (generateUpcomingGames (regenSpecOf gid g u) 8
        (now.fdiv 1440)).Pairwise (fun a b => a.id ≠ b.id) := by
      refine List.Pairwise.imp_of_mem ?_ hshape.1
      intro a b ha hb hab he
      rw [(hnew_ge a ha).2, (hnew_ge b hb).2] at he
      have : a.date = b.date := congrArg Prod.snd he
      omega
    exact List.pairwise_map.mpr hpw
  rw [hstep]
  refine ⟨rfl, rfl, ?_, ?_, ?_, ?_, ?_⟩
  · simp only
    rw [alookup_aupd_self, hg]
    rfl
  · intro k doc hdoc hpast
    simp only
    have hk := hkeys (k, doc) (mem_of_alookup_eq_some hdoc)
    have hk2 : doc.date = k.2 * 1440 := hk.2
    have hdle : doc.date ≤ now := by
      have h1 : now.fdiv 1440 * 1440 ≤ now := by
        rw [Int.fdiv_eq_ediv _ (by norm_num)]
        omega
      omega
    have hfilter := alookup_filter
      (fun p => decide (¬ (p.2.group_id = gid ∧ p.2.date > now))) hgnd hdoc
    dsimp only at hfilter
    have hpred : (decide (¬ (doc.group_id = gid ∧ doc.date > now))) =
        true := by
      simp only [decide_eq_true_eq]
      intro hc
      omega
    rw [hpred, if_pos rfl] at hfilter
    rw [alookup_foldl_aset_ne _ _ _ _ _ ?_, hfilter]
    intro game hgame he
    have h2 := hnew_ge game hgame
    have h3 : k.2 < now.fdiv 1440 := by omega
    rw [h2.2] at he
    have : game.date = k.2 := congrArg Prod.snd he
    omega
  · intro k doc hdoc hne
    simp only
    have hk := hkeys (k, doc) (mem_of_alookup_eq_some hdoc)
    have hk1 : doc.group_id = k.1 := hk.1
    have hfilter := alookup_filter
      (fun p => decide (¬ (p.2.group_id = gid ∧ p.2.date > now))) hgnd hdoc
    dsimp only at hfilter
    have hpred : (decide (¬ (doc.group_id = gid ∧ doc.date > now))) =
        true := by
      simp only [decide_eq_true_eq]
      intro hc
      apply hne
      rw [← hk1, hc.1]
    rw [hpred, if_pos rfl] at hfilter
    rw [alookup_foldl_aset_ne _ _ _ _ _ ?_, hfilter]
    intro game hgame he
    have h2 := (hnew_ge game hgame).2
    rw [h2] at he
    exact hne (congrArg Prod.fst he).symm
  · intro k doc hdoc hgrp hfut hnotregen
    simp only
    have hfilter := alookup_filter
      (fun p => decide (¬ (p.2.group_id = gid ∧ p.2.date > now))) hgnd hdoc
    dsimp only at hfilter
    have hpred : (decide (¬ (doc.group_id = gid ∧ doc.date > now))) =
        false := by
      simp only [decide_eq_false_iff_not, not_not]
      exact ⟨hgrp, hfut⟩
    rw [hpred] at hfilter
    simp only [Bool.false_eq_true, if_neg, not_false_iff] at hfilter
    rw [alookup_foldl_aset_ne _ _ _ _ _ hnotregen, hfilter]
  · intro game hgame
    simp only
    exact alookup_foldl_aset_self _ _ _ _ game hgame hnew_nodup

/-- C6 (witness): the amended regeneration theorem applied to the concrete
hosted store at the instant 600 minutes past the midnight of day 19733. -/
theorem updateGroupSettings_regen_spec_witness :
    (updateGroupSettings storeHosted "alice" "g1" updThursday
        (19733 * 1440 + 600)).1 = { success := true, error := none } ∧
    (updateGroupSettings storeHosted "alice" "g1" updThursday
        (19733 * 1440 + 600)).2.members = storeHosted.members ∧
    alookup (updateGroupSettings storeHosted "alice" "g1" updThursday
        (19733 * 1440 + 600)).2.groups "g1" =
      some { applyUpdates g1Doc updThursday with
             updated_at := 19733 * 1440 + 600 } ∧
    (∀ (k : String × Int) (doc : GameDoc),
      alookup storeHosted.games k = some doc →
      doc.date < (19733 * 1440 + 600 : Int).fdiv 1440 * 1440 →
      alookup (updateGroupSettings storeHosted "alice" "g1" updThursday
        (19733 * 1440 + 600)).2.games k = some doc) ∧
    (∀ (k : String × Int) (doc : GameDoc),
      alookup storeHosted.games k = some doc → k.1 ≠ "g1" →
      alookup (updateGroupSettings storeHosted "alice" "g1" updThursday
        (19733 * 1440 + 600)).2.games k = some doc) ∧
    (∀ (k : String × Int) (doc : GameDoc),
      alookup storeHosted.games k = some doc → doc.group_id = "g1" →
      doc.date > 19733 * 1440 + 600 →
      (∀ game ∈ generateUpcomingGames (regenSpecOf "g1" g1Doc updThursday) 8
        ((19733 * 1440 + 600 : Int).fdiv 1440), game.id ≠ k) →
      alookup (updateGroupSettings storeHosted "alice" "g1" updThursday
        (19733 * 1440 + 600)).2.games k = none) ∧
    (∀ game ∈ generateUpcomingGames (regenSpecOf "g1" g1Doc updThursday) 8
        ((19733 * 1440 + 600 : Int).fdiv 1440),
      alookup (updateGroupSettings storeHosted "alice" "g1" updThursday
        (19733 * 1440 + 600)).2.games game.id =
        some (storedGameDoc "g1" (19733 * 1440 + 600) game)) :=
  updateGroupSettings_regen_spec storeHosted "alice" "g1" updThursday
    (19733 * 1440 + 600) g1Doc (by decide) (by decide) (Or.inl (by decide))
    (by decide) (by decide)

/-! ## Preservation of well-formedness and the group invariant (claim C1) -/

theorem step_join (s : Store) (gid uid : String) (now : Int)
    (hwf : storeWF s) (hinv : groupInvariant s gid) :
    storeWF (joinGroup s uid gid now).2 ∧
    groupInvariant (joinGroup s uid gid now).2 gid := by
  obtain ⟨hw1, hw2, hw3, hw4, hw5⟩ := hwf
  unfold joinGroup
  cases hb : alookup s.groups gid with
  | some g =>
    dsimp only
    by_cases hm : (alookup s.members (uid, gid)).isSome
    · rw [if_pos hm]
      exact ⟨⟨hw1, hw2, hw3, hw4, hw5⟩, hinv⟩
    · rw [if_neg hm]
      have hmn : alookup s.members (uid, gid) = none := by
        cases hx : alookup s.members (uid, gid) with
        | none => rfl
        | some m =>
          rw [hx] at hm
          simp at hm
      dsimp only
      constructor
      · refine ⟨?_, ?_, hw3, ?_, hw5⟩
        · rw [keys_aupd]
          exact hw1
        · exact nodup_keys_aset _ _ hw2
        · intro p hp
          rcases mem_aset_elim hp with ⟨hp1, _⟩ | hp1
          · exact hw4 p hp1
          · rw [hp1]
      · unfold groupInvariant at hinv ⊢
        rw [hb] at hinv
        have hlg : alookup (aupd s.groups gid
            (fun d => { d with member_count := d.member_count + 1,
                               updated_at := now })) gid =
            some { g with member_count := g.member_count + 1,
                          updated_at := now } := by
          rw [alookup_aupd_self, hb]
          rfl
        dsimp only
        rw [hlg]
        unfold membersOf at hinv ⊢
        rw [filter_aset, if_pos (by simp)]
        unfold aset
        rw [adel_eq_of_alookup_none (alookup_filter_none _ hmn)]
        obtain ⟨hcount, p, hp, hpadm, hpuid, huniq⟩ := hinv
        constructor
        · rw [List.length_append, List.length_singleton]
          push_cast
          omega
        · refine ⟨p, List.mem_append_left _ hp, hpadm, hpuid, ?_⟩
          intro q hq hqadm
          rcases List.mem_append.mp hq with hq1 | hq1
          · exact huniq q hq1 hqadm
          · rw [List.mem_singleton.mp hq1] at hqadm
            cases hqadm
  | none =>
    dsimp only
    cases hc : (jsSortBy (fun a b => strLe a.1 b.1)
        (s.groups.filter
          (fun p => decide (p.2.invite_code = gid.toUpper)))).head? with
    | none =>
      simp only [Option.map_none']
      exact ⟨⟨hw1, hw2, hw3, hw4, hw5⟩, hinv⟩
    | some q =>
      simp only [Option.map_some']
      have hqmem : q ∈ s.groups := by
        have h1 := List.mem_of_mem_head? hc
        have h2 := (jsSortBy_perm
          (fun (a b : String × GroupDoc) => strLe a.1 b.1) _).subset h1
        exact List.mem_of_mem_filter h2
      have hq2 : gid ≠ q.1 := by
        intro he
        have := alookup_isSome_of_mem hqmem
        rw [← he, hb] at this
        cases this
      by_cases hm : (alookup s.members (uid, q.1)).isSome
      · rw [if_pos hm]
        exact ⟨⟨hw1, hw2, hw3, hw4, hw5⟩, hinv⟩
      · rw [if_neg hm]
        dsimp only
        have hmn : alookup s.members (uid, q.1) = none := by
          cases hx : alookup s.members (uid, q.1) with
          | none => rfl
          | some m =>
            rw [hx] at hm
            simp at hm
        constructor
        · refine ⟨?_, ?_, hw3, ?_, hw5⟩
          · rw [keys_aupd]
            exact hw1
          · exact nodup_keys_aset _ _ hw2
          · intro p hp
            rcases mem_aset_elim hp with ⟨hp1, _⟩ | hp1
            · exact hw4 p hp1
            · rw [hp1]
        · unfold groupInvariant at hinv ⊢
          rw [hb] at hinv
          have hlg : alookup (aupd s.groups q.1
              (fun d => { d with member_count := d.member_count + 1,
                                 updated_at := now })) gid = none := by
            rw [alookup_aupd_ne _ _ _ _ hq2, hb]
          dsimp only
          rw [hlg]
          unfold membersOf at hinv ⊢
          rw [filter_aset,
            if_neg (by intro he2; rw [decide_eq_true_eq] at he2;
                       exact hq2 he2.symm),
            hinv]
          rfl

theorem mem_membersOf_elim {s : Store} {gid : String}
    {p : (String × String) × MemberDoc} (h : p ∈ membersOf s gid) :
    p ∈ s.members ∧ p.2.group_id = gid := by
  unfold membersOf at h
  have h2 := List.mem_filter.mp h
  exact ⟨h2.1, by simpa using h2.2⟩

theorem mem_membersOf_intro {s : Store} {gid : String}
    {p : (String × String) × MemberDoc} (h1 : p ∈ s.members)
    (h2 : p.2.group_id = gid) : p ∈ membersOf s gid := by
  unfold membersOf
  exact List.mem_filter.mpr ⟨h1, by simp [h2]⟩

theorem step_leave (s : Store) (gid uid : String) (now : Int)
    (hwf : storeWF s) (hinv : groupInvariant s gid)
    (hpre : (alookup s.members (uid, gid)).isSome = true) :
    storeWF (leaveGroup s uid gid now).2 ∧
    groupInvariant (leaveGroup s uid gid now).2 gid := by
  obtain ⟨hw1, hw2, hw3, hw4, hw5⟩ := hwf
  obtain ⟨m, hmz⟩ : ∃ m, alookup s.members (uid, gid) = some m := by
    cases hx : alookup s.members (uid, gid) with
    | none =>
      rw [hx] at hpre
      cases hpre
    | some m => exact ⟨m, rfl⟩
  have hmmem : ((uid, gid), m) ∈ s.members := mem_of_alookup_eq_some hmz
  have hmg : m.group_id = gid := by
    have h := hw4 _ hmmem
    exact (congrArg Prod.snd h).symm
  have hmM : ((uid, gid), m) ∈ membersOf s gid :=
    mem_membersOf_intro hmmem hmg
  have hndM : ((membersOf s gid).map (fun p => p.1)).Nodup :=
    nodup_keys_membersOf s gid hw2
  have hMdef : membersOf s gid
      = s.members.filter (fun p => decide (p.2.group_id = gid)) := rfl
  unfold leaveGroup
  cases hb : alookup s.groups gid with
  | none =>
    exact ⟨⟨hw1, hw2, hw3, hw4, hw5⟩, hinv⟩
  | some g =>
    dsimp only
    unfold groupInvariant at hinv
    rw [hb] at hinv
    obtain ⟨hcount, p, hpM, hpadm, hpuid, huniq⟩ := hinv
    obtain ⟨hpmem, hpg⟩ := mem_membersOf_elim hpM
    have hpkey : p.1 = (p.2.user_id, gid) := by
      rw [hw4 p hpmem, hpg]
    by_cases hadm : g.admin_id = uid
    · rw [if_pos hadm]
      have hpu : p.1 = (uid, gid) := by
        rw [hpkey, hpuid, hadm]
      have halkM : alookup (membersOf s gid) (uid, gid) = some p.2 := by
        rw [← hpu]
        exact alookup_eq_of_mem_nodup hpM hndM
      cases hfil : (membersSortedByJoin s gid).filter
          (fun p => decide (p.2.user_id ≠ uid)) with
      | nil =>
        have hall : ∀ q ∈ membersOf s gid, q.2.user_id = uid := by
          intro q hq
          by_contra hne
          have hq2 : q ∈ membersSortedByJoin s gid := by
            unfold membersSortedByJoin
            exact ((jsSortBy_perm memberLe (membersOf s gid)).symm).subset hq
          have hq3 : q ∈ (membersSortedByJoin s gid).filter
              (fun p => decide (p.2.user_id ≠ uid)) :=
            List.mem_filter.mpr ⟨hq2, by simpa using hne⟩
          rw [hfil] at hq3
          cases hq3
        have hkeys : ∀ q ∈ membersOf s gid, q.1 = (uid, gid) := by
          intro q hq
          obtain ⟨hq1, hq2⟩ := mem_membersOf_elim hq
          rw [hw4 q hq1, hall q hq, hq2]
        have hneM : membersOf s gid ≠ [] := by
          intro he
          rw [he] at hmM
          cases hmM
        obtain ⟨v, hv⟩ := singleton_of_all_same_key hneM hndM hkeys
        have hc1 : g.member_count = 1 := by
          rw [hv] at hcount
          simpa using hcount
        rw [if_neg (show ¬ g.member_count > 1 by omega)]
        dsimp only
        constructor
        · refine ⟨nodup_keys_adel gid hw1, nodup_keys_adel (uid, gid) hw2,
            ?_, ?_, ?_⟩
          · exact ((List.filter_sublist _).map _).nodup hw3
          · intro q hq
            exact hw4 q (mem_adel_elim hq).1
          · intro q hq
            exact hw5 q (List.mem_of_mem_filter hq)
        · unfold groupInvariant
          dsimp only
          rw [alookup_adel_self]
          unfold membersOf
          dsimp only
          rw [filter_adel, ← hMdef, hv, adel_cons, if_pos rfl, adel_nil]
      | cons newAdmin rest =>
        have hnaF : newAdmin ∈ (membersSortedByJoin s gid).filter
            (fun p => decide (p.2.user_id ≠ uid)) := by
          rw [hfil]
          exact List.mem_cons_self _ _
        have hnane : newAdmin.2.user_id ≠ uid := by
          have h := (List.mem_filter.mp hnaF).2
          simpa using h
        have hnaM : newAdmin ∈ membersOf s gid := by
          have h := List.mem_of_mem_filter hnaF
          unfold membersSortedByJoin at h
          exact (jsSortBy_perm memberLe (membersOf s gid)).subset h
        obtain ⟨hnamem, hnag⟩ := mem_membersOf_elim hnaM
        have hnakey : newAdmin.1 = (newAdmin.2.user_id, gid) := by
          rw [hw4 _ hnamem, hnag]
        have hkne : newAdmin.1 ≠ (uid, gid) := by
          rw [hnakey]
          intro he
          exact hnane (congrArg Prod.fst he)
        have hlen2 : 2 ≤ (membersOf s gid).length := by
          have h2 := length_adel_isSome hndM (by rw [halkM]; rfl)
          have h3 : newAdmin ∈ adel (membersOf s gid) (uid, gid) :=
            mem_adel_of_mem hnaM hkne
          have h4 : 0 < (adel (membersOf s gid) (uid, gid)).length :=
            List.length_pos.mpr (by
              intro he
              rw [he] at h3
              cases h3)
          omega
        have hgt : g.member_count > 1 := by
          rw [hcount]
          omega
        dsimp only
        rw [if_pos hgt]
        constructor
        · refine ⟨?_, ?_, hw3, ?_, hw5⟩
          · rw [keys_aupd, keys_aupd]
            exact hw1
          · refine nodup_keys_adel (uid, gid) ?_
            rw [keys_aupd]
            exact hw2
          · intro q hq
            rcases mem_adel_elim hq with ⟨hq1, _⟩
            rcases mem_aupd_elim hq1 with ⟨hq2, _⟩ | ⟨v, hv2, he⟩
            · exact hw4 q hq2
            · rw [he]
              exact hw4 (newAdmin.1, v) hv2
        · unfold groupInvariant
          dsimp only
          rw [alookup_aupd_self, alookup_aupd_self, hb]
          simp only [Option.map_some']
          unfold membersOf
          dsimp only
          have hfa := filter_aupd s.members newAdmin.1
            (fun m => { m with is_admin := true })
            (fun p => decide (p.2.group_id = gid))
            (fun k0 v => rfl)
          rw [filter_adel, hfa, ← hMdef]
          constructor
          · show g.member_count - 1 = _
            have hnd2 : ((aupd (membersOf s gid) newAdmin.1
                (fun m => { m with is_admin := true })).map
                  (fun p => p.1)).Nodup := by
              rw [keys_aupd]
              exact hndM
            have halk2 : alookup (aupd (membersOf s gid) newAdmin.1
                (fun m => { m with is_admin := true })) (uid, gid)
                = some p.2 := by
              rw [alookup_aupd_ne _ _ _ _ (Ne.symm hkne)]
              exact halkM
            have h2 := length_adel_isSome hnd2 (by rw [halk2]; rfl)
            rw [length_aupd] at h2
            rw [hcount]
            omega
          · refine ⟨(newAdmin.1,
              (fun m : MemberDoc => { m with is_admin := true }) newAdmin.2),
              ?_, rfl, rfl, ?_⟩
            · exact mem_adel_of_mem (mem_aupd_self _ hnaM) hkne
            · intro r hr hradm
              obtain ⟨hr1, hrne⟩ := mem_adel_elim hr
              rcases mem_aupd_elim hr1 with ⟨hr2, _⟩ | ⟨v, hv2, he⟩
              · exfalso
                have hrp := huniq r hr2 hradm
                rw [hrp] at hrne
                exact hrne hpu
              · have hveq : ((newAdmin.1, v) :
                    (String × String) × MemberDoc) = newAdmin :=
                  eq_of_same_key hv2 hnaM rfl hndM
                have hv3 : v = newAdmin.2 := congrArg Prod.snd hveq
                rw [he, hv3]
    · rw [if_neg hadm]
      dsimp only
      have hpne : p.1 ≠ (uid, gid) := by
        rw [hpkey]
        intro he
        apply hadm
        rw [← hpuid]
        exact congrArg Prod.fst he
      have halkM2 : alookup (membersOf s gid) (uid, gid) = some m :=
        alookup_eq_of_mem_nodup hmM hndM
      constructor
      · refine ⟨?_, nodup_keys_adel (uid, gid) hw2, hw3, ?_, hw5⟩
        · rw [keys_aupd]
          exact hw1
        · intro q hq
          exact hw4 q (mem_adel_elim hq).1
      · unfold groupInvariant
        dsimp only
        rw [alookup_aupd_self, hb]
        simp only [Option.map_some']
        unfold membersOf
        dsimp only
        rw [filter_adel, ← hMdef]
        constructor
        · show g.member_count - 1 = _
          have h2 := length_adel_isSome hndM (by rw [halkM2]; rfl)
          rw [hcount]
          omega
        · refine ⟨p, mem_adel_of_mem hpM hpne, hpadm, ?_, ?_⟩
          · show p.2.user_id = g.admin_id
            exact hpuid
          · intro r hr hradm
            exact huniq r (mem_adel_elim hr).1 hradm

theorem step_remove (s : Store) (gid uid target : String) (now : Int)
    (hwf : storeWF s) (hinv : groupInvariant s gid)
    (hpre : (alookup s.members (target, gid)).isSome = true) :
    storeWF (removeMember s uid gid target now).2 ∧
    groupInvariant (removeMember s uid gid target now).2 gid := by
  obtain ⟨hw1, hw2, hw3, hw4, hw5⟩ := hwf
  obtain ⟨m, hmz⟩ : ∃ m, alookup s.members (target, gid) = some m := by
    cases hx : alookup s.members (target, gid) with
    | none =>
      rw [hx] at hpre
      cases hpre
    | some m => exact ⟨m, rfl⟩
  have hmmem : ((target, gid), m) ∈ s.members := mem_of_alookup_eq_some hmz
  have hmg : m.group_id = gid := by
    have h := hw4 _ hmmem
    exact (congrArg Prod.snd h).symm
  have hmM : ((target, gid), m) ∈ membersOf s gid :=
    mem_membersOf_intro hmmem hmg
  have hndM : ((membersOf s gid).map (fun p => p.1)).Nodup :=
    nodup_keys_membersOf s gid hw2
  have hMdef : membersOf s gid
      = s.members.filter (fun p => decide (p.2.group_id = gid)) := rfl
  unfold removeMember
  cases hb : alookup s.groups gid with
  | none =>
    exact ⟨⟨hw1, hw2, hw3, hw4, hw5⟩, hinv⟩
  | some g =>
    dsimp only
    by_cases hadm : g.admin_id ≠ uid
    · rw [if_pos hadm]
      exact ⟨⟨hw1, hw2, hw3, hw4, hw5⟩, hinv⟩
    · rw [if_neg hadm]
      have hadm2 : g.admin_id = uid := not_not.mp hadm
      by_cases htu : target = uid
      · rw [if_pos htu]
        exact ⟨⟨hw1, hw2, hw3, hw4, hw5⟩, hinv⟩
      · rw [if_neg htu]
        dsimp only
        unfold groupInvariant at hinv
        rw [hb] at hinv
        obtain ⟨hcount, p, hpM, hpadm, hpuid, huniq⟩ := hinv
        obtain ⟨hpmem, hpg⟩ := mem_membersOf_elim hpM
        have hpkey : p.1 = (p.2.user_id, gid) := by
          rw [hw4 p hpmem, hpg]
        have hpne : p.1 ≠ (target, gid) := by
          rw [hpkey]
          intro he
          apply htu
          have h5 := congrArg Prod.fst he
          rw [hpuid, hadm2] at h5
          exact h5.symm
        have halkM2 : alookup (membersOf s gid) (target, gid) = some m :=
          alookup_eq_of_mem_nodup hmM hndM
        constructor
        · refine ⟨?_, nodup_keys_adel (target, gid) hw2, hw3, ?_, hw5⟩
          · rw [keys_aupd]
            exact hw1
          · intro q hq
            exact hw4 q (mem_adel_elim hq).1
        · unfold groupInvariant
          dsimp only
          rw [alookup_aupd_self, hb]
          simp only [Option.map_some']
          unfold membersOf
          dsimp only
          rw [filter_adel, ← hMdef]
          constructor
          · show g.member_count - 1 = _
            have h2 := length_adel_isSome hndM (by rw [halkM2]; rfl)
            rw [hcount]
            omega
          · refine ⟨p, mem_adel_of_mem hpM hpne, hpadm, ?_, ?_⟩
            · show p.2.user_id = g.admin_id
              exact hpuid
            · intro r hr hradm
              exact huniq r (mem_adel_elim hr).1 hradm

theorem step_transfer (s : Store) (gid uid target : String) (now : Int)
    (hwf : storeWF s) (hinv : groupInvariant s gid) :
    storeWF (transferAdmin s uid gid target now).2 ∧
    groupInvariant (transferAdmin s uid gid target now).2 gid := by
  obtain ⟨hw1, hw2, hw3, hw4, hw5⟩ := hwf
  have hndM : ((membersOf s gid).map (fun p => p.1)).Nodup :=
    nodup_keys_membersOf s gid hw2
  have hMdef : membersOf s gid
      = s.members.filter (fun p => decide (p.2.group_id = gid)) := rfl
  have hMkey : ∀ q ∈ membersOf s gid, q.1 = (q.2.user_id, gid) := by
    intro q hq
    obtain ⟨hq1, hq2⟩ := mem_membersOf_elim hq
    rw [hw4 q hq1, hq2]
  unfold transferAdmin
  cases hb : alookup s.groups gid with
  | none =>
    exact ⟨⟨hw1, hw2, hw3, hw4, hw5⟩, hinv⟩
  | some g =>
    dsimp only
    by_cases hadm : g.admin_id ≠ uid
    · rw [if_pos hadm]
      exact ⟨⟨hw1, hw2, hw3, hw4, hw5⟩, hinv⟩
    · rw [if_neg hadm]
      have hadm2 : g.admin_id = uid := not_not.mp hadm
      by_cases hmtN : (alookup s.members (target, gid)).isNone = true
      · rw [if_pos hmtN]
        exact ⟨⟨hw1, hw2, hw3, hw4, hw5⟩, hinv⟩
      · rw [if_neg hmtN]
        by_cases hmuN : (alookup s.members (uid, gid)).isNone = true
        · rw [if_pos hmuN]
          exact ⟨⟨hw1, hw2, hw3, hw4, hw5⟩, hinv⟩
        · rw [if_neg hmuN]
          dsimp only
          obtain ⟨mt, hmtz⟩ : ∃ mt,
              alookup s.members (target, gid) = some mt := by
            cases hx : alookup s.members (target, gid) with
            | none =>
              rw [hx] at hmtN
              exact absurd rfl hmtN
            | some mt => exact ⟨mt, rfl⟩
          obtain ⟨mu, hmuz⟩ : ∃ mu,
              alookup s.members (uid, gid) = some mu := by
            cases hx : alookup s.members (uid, gid) with
            | none =>
              rw [hx] at hmuN
              exact absurd rfl hmuN
            | some mu => exact ⟨mu, rfl⟩
          have hmtmem : ((target, gid), mt) ∈ s.members :=
            mem_of_alookup_eq_some hmtz
          have hmtg : mt.group_id = gid := by
            have h := hw4 _ hmtmem
            exact (congrArg Prod.snd h).symm
          have hmtM : ((target, gid), mt) ∈ membersOf s gid :=
            mem_membersOf_intro hmtmem hmtg
          unfold groupInvariant at hinv
          rw [hb] at hinv
          obtain ⟨hcount, p, hpM, hpadm, hpuid, huniq⟩ := hinv
          have hpu : p.1 = (uid, gid) := by
            rw [hMkey p hpM, hpuid, hadm2]
          constructor
          · refine ⟨?_, ?_, hw3, ?_, hw5⟩
            · rw [keys_aupd]
              exact hw1
            · rw [keys_aupd, keys_aupd]
              exact hw2
            · intro q hq
              dsimp only at hq
              rcases mem_aupd_elim hq with ⟨hq1, _⟩ | ⟨v, hv2, he⟩
              · rcases mem_aupd_elim hq1 with ⟨hq2, _⟩ | ⟨v, hv2, he⟩
                · exact hw4 q hq2
                · rw [he]
                  exact hw4 ((uid, gid), v) hv2
              · rw [he]
                rcases mem_aupd_elim hv2 with ⟨hv3, _⟩ | ⟨v4, hv4, he4⟩
                · exact hw4 ((target, gid), v) hv3
                · show ((target, gid) : String × String)
                      = (v.user_id, v.group_id)
                  have hk9 : ((target, gid) : String × String) = (uid, gid) :=
                    congrArg Prod.fst he4
                  have hv9 : v = { v4 with is_admin := false } :=
                    congrArg Prod.snd he4
                  rw [hk9, hv9]
                  exact hw4 ((uid, gid), v4) hv4
          · unfold groupInvariant
            dsimp only
            rw [alookup_aupd_self, hb]
            simp only [Option.map_some']
            unfold membersOf
            dsimp only
            have hfa1 := filter_aupd s.members (uid, gid)
              (fun m => { m with is_admin := false })
              (fun p => decide (p.2.group_id = gid)) (fun k0 v => rfl)
            have hfa2 := filter_aupd
              (aupd s.members (uid, gid)
                (fun m => { m with is_admin := false }))
              (target, gid) (fun m => { m with is_admin := true })
              (fun p => decide (p.2.group_id = gid)) (fun k0 v => rfl)
            rw [hfa2, hfa1, ← hMdef]
            have hndL1 : ((aupd (membersOf s gid) (uid, gid)
                (fun m => { m with is_admin := false })).map
                  (fun p => p.1)).Nodup := by
              rw [keys_aupd]
              exact hndM
            have hL1key : ∀ q ∈ aupd (membersOf s gid) (uid, gid)
                (fun m => { m with is_admin := false }),
                q.1 = (q.2.user_id, gid) := by
              intro q hq
              rcases mem_aupd_elim hq with ⟨hq1, _⟩ | ⟨v, hv2, he⟩
              · exact hMkey q hq1
              · rw [he]
                exact hMkey ((uid, gid), v) hv2
            obtain ⟨v1, hv1⟩ : ∃ v1, alookup (aupd (membersOf s gid)
                (uid, gid) (fun m => { m with is_admin := false }))
                (target, gid) = some v1 := by
              by_cases hk : ((target, gid) : String × String) = (uid, gid)
              · rw [hk, alookup_aupd_self]
                rw [← hk]
                have halkt : alookup (membersOf s gid) (target, gid)
                    = some mt := alookup_eq_of_mem_nodup hmtM hndM
                rw [halkt]
                exact ⟨_, rfl⟩
              · rw [alookup_aupd_ne _ _ _ _ hk]
                have halkt : alookup (membersOf s gid) (target, gid)
                    = some mt := alookup_eq_of_mem_nodup hmtM hndM
                exact ⟨mt, halkt⟩
            have hv1mem : ((target, gid), v1) ∈ aupd (membersOf s gid)
                (uid, gid) (fun m => { m with is_admin := false }) :=
              mem_of_alookup_eq_some hv1
            have hv1uid : v1.user_id = target := by
              have h7 := hL1key _ hv1mem
              exact (congrArg Prod.fst h7).symm
            constructor
            · show g.member_count = _
              rw [length_aupd, length_aupd]
              exact hcount
            · refine ⟨((target, gid),
                (fun m : MemberDoc => { m with is_admin := true }) v1),
                mem_aupd_self _ hv1mem, rfl, ?_, ?_⟩
              · exact hv1uid
              · intro r hr hradm
                rcases mem_aupd_elim hr with ⟨hr1, hrneT⟩ | ⟨v, hv2, he⟩
                · rcases mem_aupd_elim hr1 with ⟨hr2, hrneU⟩ | ⟨v, hv2, he⟩
                  · exfalso
                    have hrp := huniq r hr2 hradm
                    apply hrneU
                    rw [hrp, hpu]
                  · exfalso
                    rw [he] at hradm
                    exact Bool.noConfusion hradm
                · have h7 : alookup (aupd (membersOf s gid) (uid, gid)
                      (fun m => { m with is_admin := false }))
                      (target, gid) = some v :=
                    alookup_eq_of_mem_nodup hv2 hndL1
                  rw [hv1] at h7
                  injection h7 with h8
                  rw [he, h8]

theorem nodup_keys_foldl_aset {κ α β : Type} [DecidableEq κ]
    (f : β → κ) (v : β → α) :
    ∀ (l : List β) (init : List (κ × α)),
    (init.map (fun p => p.1)).Nodup →
    ((l.foldl (fun acc b => aset acc (f b) (v b)) init).map
      (fun p => p.1)).Nodup := by
  intro l
  induction l with
  | nil =>
    intro init h
    exact h
  | cons b l ih =>
    intro init h
    exact ih _ (nodup_keys_aset _ _ h)

theorem mem_foldl_aset_elim {κ α β : Type} [DecidableEq κ]
    (f : β → κ) (v : β → α) :
    ∀ (l : List β) (init : List (κ × α)) (p : κ × α),
    p ∈ l.foldl (fun acc b => aset acc (f b) (v b)) init →
    p ∈ init ∨ ∃ b ∈ l, p = (f b, v b) := by
  intro l
  induction l with
  | nil =>
    intro init p h
    exact Or.inl h
  | cons b l ih =>
    intro init p h
    rcases ih _ p h with h1 | ⟨b2, hb2, he⟩
    · rcases mem_aset_elim h1 with ⟨h2, _⟩ | h2
      · exact Or.inl h2
      · exact Or.inr ⟨b, List.mem_cons_self _ _, h2⟩
    · exact Or.inr ⟨b2, List.mem_cons_of_mem _ hb2, he⟩

theorem step_create (s : Store) (uid : String) (gd : GroupData)
    (groupId inviteCode : String) (now today : Int)
    (hwf : storeWF s)
    (hg0 : alookup s.groups groupId = none)
    (hm0 : membersOf s groupId = []) :
    storeWF (createGroup s uid gd groupId inviteCode now today).2 ∧
    groupInvariant (createGroup s uid gd groupId inviteCode now today).2
      groupId := by
  obtain ⟨hw1, hw2, hw3, hw4, hw5⟩ := hwf
  have hshape := generateUpcomingGames_shape
    { id := groupId, game_days := some gd.gameDays, day_of_week := none,
      time := gd.time, frequency := some gd.frequency } 8 today
  have hMdef : membersOf s groupId
      = s.members.filter (fun p => decide (p.2.group_id = groupId)) := rfl
  unfold createGroup
  dsimp only
  rw [foldl_games_aset]
  constructor
  · refine ⟨nodup_keys_aset _ _ hw1, nodup_keys_aset _ _ hw2, ?_, ?_, ?_⟩
    · exact nodup_keys_foldl_aset _ _ _ _ hw3
    · intro q hq
      rcases mem_aset_elim hq with ⟨hq1, _⟩ | hq1
      · exact hw4 q hq1
      · rw [hq1]
    · intro q hq
      rcases mem_foldl_aset_elim _ _ _ _ q hq with hq1 | ⟨game, hgame, he⟩
      · exact hw5 q hq1
      · have hid := (hshape.2.1 game hgame).2.1
        rw [he, hid]
        exact ⟨rfl, rfl⟩
  · unfold groupInvariant
    dsimp only
    rw [alookup_aset_self]
    unfold membersOf
    dsimp only
    rw [filter_aset, if_pos (by simp), ← hMdef, hm0]
    constructor
    · rfl
    · refine ⟨((uid, groupId),
        { user_id := uid, group_id := groupId, is_admin := true,
          joined_at := now }), ?_, rfl, rfl, ?_⟩
      · exact List.mem_singleton.mpr rfl
      · intro r hr hradm
        exact List.mem_singleton.mp hr

theorem steps_preserve (gid : String) :
    ∀ (ops : List GroupOp) (s : Store), storeWF s → groupInvariant s gid →
    opsPre gid s ops →
    storeWF (applyGroupOps gid s ops) ∧
    groupInvariant (applyGroupOps gid s ops) gid := by
  intro ops
  induction ops with
  | nil =>
    intro s hwf hinv _
    exact ⟨hwf, hinv⟩
  | cons op ops ih =>
    intro s hwf hinv hpre
    obtain ⟨hp1, hp2⟩ := hpre
    have hstep : storeWF (applyGroupOp gid s op) ∧
        groupInvariant (applyGroupOp gid s op) gid := by
      cases op with
      | join uid now => exact step_join s gid uid now hwf hinv
      | leave uid now => exact step_leave s gid uid now hwf hinv hp1
      | remove uid target now =>
        exact step_remove s gid uid target now hwf hinv hp1
      | transfer uid target now =>
        exact step_transfer s gid uid target now hwf hinv
    exact ih (applyGroupOp gid s op) hstep.1 hstep.2 hp2

/-- C1: corrected.  The raw claim (every operation sequence on a freshly
created group keeps `member_count` equal to the number of memberships with
exactly one admin membership matching `admin_id`, or the group is gone)
is false: `leaveGroup` never checks that the caller holds a membership, so a
non-member leave decrements `member_count` without removing any record (see
the companion counterexample).  Amended: the invariant is preserved by every
sequence in which each `leaveGroup` caller and each `removeMember` target
holds a membership at the moment the operation runs (`joinGroup` and
`transferAdmin` need no side condition); it holds in the created state and
is preserved by every such step, covering the delete-group branch via the
`none` case. -/
theorem group_lifecycle_invariant (s : Store) (uid : String)
    (gd : GroupData) (groupId inviteCode : String) (now today : Int)
    (ops : List GroupOp)
    (hwf : storeWF s)
    (hg0 : alookup s.groups groupId = none)
    (hm0 : membersOf s groupId = [])
    (hpre : opsPre groupId
      (createGroup s uid gd groupId inviteCode now today).2 ops) :
    storeWF (applyGroupOps groupId
      (createGroup s uid gd groupId inviteCode now today).2 ops) ∧
    groupInvariant (applyGroupOps groupId
      (createGroup s uid gd groupId inviteCode now today).2 ops) groupId := by
  obtain ⟨hwf1, hinv1⟩ :=
    step_create s uid gd groupId inviteCode now today hwf hg0 hm0
  exact steps_preserve groupId ops _ hwf1 hinv1 hpre

/-- C1 counterexample: on a freshly created group (admin alice, one
membership, `member_count = 1`), a single `leaveGroup` by the non-member bob
succeeds and commits; afterwards `member_count = 0` while alice's membership
record still exists, so the spec invariant is violated by a sequence of
lifecycle operations on a created state. -/
theorem group_lifecycle_invariant_counterexample :
    ¬ groupInvariant
      (applyGroupOps "g1"
        (createGroup emptyStore "alice" gd0 "g1" "ABC123" 0 19733).2
        [GroupOp.leave "bob" 5]) "g1" := by decide

theorem group_lifecycle_invariant_witness :
    storeWF (applyGroupOps "g1"
      (createGroup emptyStore "alice" gd0 "g1" "ABC123" 0 19733).2
      [GroupOp.join "bob" 1, GroupOp.transfer "alice" "bob" 2,
       GroupOp.leave "bob" 3]) ∧
    groupInvariant (applyGroupOps "g1"
      (createGroup emptyStore "alice" gd0 "g1" "ABC123" 0 19733).2
      [GroupOp.join "bob" 1, GroupOp.transfer "alice" "bob" 2,
       GroupOp.leave "bob" 3]) "g1" :=
  group_lifecycle_invariant emptyStore "alice" gd0 "g1" "ABC123" 0 19733
    [GroupOp.join "bob" 1, GroupOp.transfer "alice" "bob" 2,
     GroupOp.leave "bob" 3]
    (by decide) (by decide) (by decide) (by decide)

end Mahjong
